import Mathlib

/-!
# Verification of the Fresh 1.x → 2.x codemod (`src/update/src/update.ts`)

This file is a shallow embedding, in Lean 4, of the source-to-source
migration tool found in `src/update/src/update.ts` of the repository:
the directive-comment stripping, the ctx member-access rewriter
(`rewriteCtxMemberName`), the statement walker (`rewriteCtxMethods`),
the handler-parameter normalizer (`maybePrependReqVar`), the import
rewriter, the per-file orchestrator (`updateFile`), the manifest edit
script (`updateDenoJson`), and the per-file error aggregation of
`updateProject`.

Modelling conventions:
* JS strings are modelled as `List Char`; `String.prototype.replaceAll`
  with an empty replacement, `trim`, `includes` and `startsWith` are
  modelled directly on character lists.
* The TypeScript syntax tree is modelled by inductive types covering the
  node kinds the tool actually dispatches on (property accesses, calls,
  awaits, binary expressions, return/variable/expression statements,
  parameters with identifier or object-binding names, import
  declarations).  Statement lists are flat — the modelled grammar is the
  fragment of TS for which `getDescendantStatements()` returns the
  statement list itself, so the final "other statement kind" arm of the
  walker's dispatch table is unreachable in the model.
* In-place tree mutation becomes functional update; ts-morph's parent
  pointer (`getParentIfKind(CallExpression)`, used to append the `404`
  argument) is modelled by handling the property-access child specially
  at the one dispatch site whose parent is a call expression (the callee
  position) — at every other dispatch site the parent is not a call
  expression, so the flag is dropped, exactly as `getParentIfKind`
  returns `undefined` there.
* `JS Set` objects (the `ImportState` sets) are modelled as
  insertion-ordered duplicate-free lists.
-/

namespace FreshUpd

/-! ## JS string helpers -/

/-- Whitespace for the purposes of `String.prototype.trim` (the
    characters that actually occur in the tool's data). -/
def jsWs (c : Char) : Bool := c = ' ' || c = '\t' || c = '\n' || c = '\r'

/-- `String.prototype.trim`. -/
def jsTrim (l : List Char) : List Char :=
  ((l.dropWhile jsWs).reverse.dropWhile jsWs).reverse

/-- One left-to-right pass of `String.prototype.replaceAll(pat, "")`:
    scan left to right; on a match skip the matched characters and
    continue *after* the match (JS does not rescan the replacement
    site).  `fuel` is an upper bound on the number of steps, used to
    make the recursion structural; it is always called with
    `fuel = l.length`, which suffices since every step consumes at
    least one character. -/
def replaceAllEmptyAux (pat : List Char) : Nat → List Char → List Char
  | _, [] => []
  | 0, l => l
  | fuel + 1, c :: rest =>
    if pat ≠ [] ∧ pat.isPrefixOf (c :: rest) then
      replaceAllEmptyAux pat fuel (rest.drop (pat.length - 1))
    else
      c :: replaceAllEmptyAux pat fuel rest

/-- `s.replaceAll(pat, "")`. -/
def replaceAllEmpty (pat : List Char) (s : List Char) : List Char :=
  replaceAllEmptyAux pat s.length s

/-- The seven directive-comment patterns stripped at text level by
    `updateFile` (lines 285-292 of update.ts), in source order. -/
def directivePatterns : List (List Char) :=
  [ ("/** @jsx h */\n").toList
  , ("/** @jsxFrag Fragment */\n").toList
  , ("/// <reference no-default-lib=\"true\" />\n").toList
  , ("/// <reference lib=\"dom\" />\n").toList
  , ("/// <reference lib=\"dom.iterable\" />\n").toList
  , ("/// <reference lib=\"dom.asynciterable\" />\n").toList
  , ("/// <reference lib=\"deno.ns\" />\n").toList ]

/-- The chained `.replaceAll(p, "")` calls of `updateFile`. -/
def stripDirectives (s : List Char) : List Char :=
  directivePatterns.foldl (fun acc p => replaceAllEmpty p acc) s

/-- `String.prototype.includes`. -/
def jsIncludes (hay needle : List Char) : Bool :=
  match hay with
  | [] => needle.isEmpty
  | _ :: rest => needle.isPrefixOf hay || jsIncludes rest needle

/-- `path.dirname`-style directory of a file path
    (ts-morph `getDirectoryPath`): everything before the last slash. -/
def dirOf (p : List Char) : List Char :=
  ((p.reverse.dropWhile (· ≠ '/')).drop 1).reverse

/-! ## Expressions and the ctx member-access rewriter -/

/-- Expression nodes of the modelled fragment. `lit` covers number and
    other literal tokens by their raw text (the appended `404`
    argument is `lit "404"`). -/
inductive Expr where
  | ident : String → Expr
  | propAccess : Expr → String → Expr
  | call : Expr → List Expr → Expr
  | awaitE : Expr → Expr
  | binary : Expr → String → Expr → Expr
  | lit : String → Expr

mutual

/-- `node.getText()` for the modelled expression fragment. -/
def textOf : Expr → List Char
  | .ident s => s.toList
  | .propAccess r n => textOf r ++ '.' :: n.toList
  | .call f args => textOf f ++ '(' :: textOfArgs args ++ [')']
  | .awaitE e => "await ".toList ++ textOf e
  | .binary l op r => textOf l ++ ' ' :: op.toList ++ ' ' :: textOf r
  | .lit s => s.toList

def textOfArgs : List Expr → List Char
  | [] => []
  | [e] => textOf e
  | e :: e2 :: es => textOf e ++ ',' :: ' ' :: textOfArgs (e2 :: es)

end

/-- `rewriteCtxMemberName` (update.ts lines 653-674), functionally.

    For a property-access node:
    * if the receiver's text is `ctx` and the accessed name is
      `remoteAddr`, the *receiver* is replaced with the text
      `ctx.info.remoteAddr` (so the whole node becomes
      `ctx.info.remoteAddr.remoteAddr`);
    * otherwise, if the last child (the accessed name) is
      `renderNotFound`, that name is replaced with `throw`, and the
      returned flag records that `getParentIfKind(CallExpression)`
      would now add a `404` argument to the parent call — the caller
      applies it exactly when the parent is a call expression;
    * otherwise, if the first child (the receiver) is itself a property
      access, recurse into it (any flag from the recursion is dropped:
      the inner node's parent is the outer property access, never a
      call expression).

    Non-property-access nodes are returned unchanged (the function is
    only ever invoked on property accesses). -/
def rewriteCtxMemberName : Expr → Expr × Bool
  | .propAccess r n =>
    if textOf r = "ctx".toList ∧ n = "remoteAddr" then
      (.propAccess (.propAccess (.propAccess (.ident "ctx") "info") "remoteAddr") "remoteAddr",
        false)
    else if n = "renderNotFound" then
      (.propAccess r "throw", true)
    else
      match r with
      | .propAccess a b => (.propAccess (rewriteCtxMemberName (.propAccess a b)).1 n, false)
      | _ => (.propAccess r n, false)
  | e => (e, false)

/-- The expression-level dispatch of `rewriteCtxMethods`
    (update.ts lines 611-651) acting on a node whose parent is *not* a
    call expression:
    * property access → `rewriteCtxMemberName` (the flag is dropped;
      the parent is not a call);
    * call expression → recurse into its callee (`getExpression()`);
      when the callee is a property access, the callee's parent *is*
      this call, so a raised flag appends a literal `404` argument;
    * await expression → recurse into `getExpression()`;
    * binary expression → recurse into both operands;
    * every other kind is left untouched (the walker does not descend
      into call arguments or other expression kinds). -/
def walkExpr : Expr → Expr
  | .propAccess r n => (rewriteCtxMemberName (.propAccess r n)).1
  | .call f args =>
    match f with
    | .propAccess a b =>
      let p := rewriteCtxMemberName (.propAccess a b)
      .call p.1 (if p.2 then args ++ [.lit "404"] else args)
    | g => .call (walkExpr g) args
  | .awaitE e => .awaitE (walkExpr e)
  | .binary l op r => .binary (walkExpr l) op (walkExpr r)
  | e => e

/-- One variable declaration inside a variable statement. -/
structure VarDecl where
  vname : String
  init : Option Expr

/-- Statement nodes of the modelled (flat) fragment: return statements,
    variable statements (with their declaration kind text), and
    expression statements. -/
inductive Stmt where
  | ret : Option Expr → Stmt
  | varStmt : String → List VarDecl → Stmt
  | exprStmt : Expr → Stmt

/-- Statement-level dispatch of `rewriteCtxMethods`:
    * return statement → recurse into its expression if present;
    * variable statement → recurse into each declaration's initializer;
    * expression statement → recurse into its expression.
    (For this flat fragment the final "other `...Statement` kind" arm
    of the source's dispatch table is unreachable.) -/
def walkStmt : Stmt → Stmt
  | .ret none => .ret none
  | .ret (some e) => .ret (some (walkExpr e))
  | .varStmt k ds => .varStmt k (ds.map fun d => ⟨d.vname, d.init.map walkExpr⟩)
  | .exprStmt e => .exprStmt (walkExpr e)

/-- `rewriteCtxMethods` over a statement list. -/
def rewriteCtxMethods (stmts : List Stmt) : List Stmt := stmts.map walkStmt

/-! ## The parameter normalizer `maybePrependReqVar` -/

/-- The three `JS Set`s of symbol names accumulated per file
    (`ImportState`, update.ts lines 106-110), modelled as
    insertion-ordered duplicate-free lists. -/
structure ImportState where
  core : List String
  runtime : List String
  compat : List String
  deriving DecidableEq

/-- `Set.prototype.add`: append if not already present. -/
def addName (n : String) (s : List String) : List String :=
  if n ∈ s then s else s ++ [n]

/-- A parameter's binding name: a plain identifier or an object binding
    pattern with its (simple) element names. -/
inductive PName where
  | idn : String → PName
  | pat : List String → PName
  deriving DecidableEq

/-- A parameter declaration: binding name plus optional type
    annotation text. -/
structure Param where
  pname : PName
  tyAnn : Option String
  deriving DecidableEq

/-- A function body: a block, or (for arrow functions) a bare
    expression.  In TS only arrow functions can have expression
    bodies; the `exprBody` case for non-arrows is vacuous. -/
inductive FnBody where
  | block : List Stmt → FnBody
  | exprBody : Expr → FnBody

/-- A function-like node (method declaration, function declaration,
    function expression or arrow function). -/
structure FnNode where
  isArrow : Bool
  params : List Param
  body : FnBody

/-- Comma-join for rendering object binding patterns. -/
def joinComma : List String → List Char
  | [] => []
  | [s] => s.toList
  | s :: s2 :: rest => s.toList ++ ',' :: ' ' :: joinComma (s2 :: rest)

/-- The text of an object binding pattern in the standard formatting
    with spaces inside the braces (as produced by deno fmt), e.g.
    `\x7b remoteAddr \x7d`.  The source's text-level `req`-splice
    (`getFullText().slice(0, -2) + ", req \x7d"`) is exact for this
    formatting; `renderPat_splice` below records that on this rendering
    the splice coincides with appending an element named `req`. -/
def renderPatChars (es : List String) : List Char :=
  '\x7b' :: ' ' :: (joinComma es ++ [' ', '\x7d'])

/-- ts-morph `ParameterDeclaration.getName()`: the identifier text, or
    the binding pattern's text. -/
def paramNameText : PName → String
  | .idn s => s
  | .pat es => ⟨renderPatChars es⟩

/-- The constant declarations injected by the normalizer, e.g.
    `const req = ctx.req` / `const remoteAddr = info.remoteAddr`
    (the initializer texts parse to single property accesses). -/
def constStmt (nm obj fld : String) : Stmt :=
  .varStmt "const" [⟨nm, some (.propAccess (.ident obj) fld)⟩]

/-- `insertVariableStatement(0, ...)`: prepend a statement to a block
    body.  Non-block bodies are unreachable here: for arrows the
    normalizer returns before inserting, and non-arrow functions always
    have block bodies. -/
def prependStmt (s : Stmt) : FnBody → FnBody
  | .block l => .block (s :: l)
  | .exprBody e => .exprBody e

/-- Whether an optional binding name is an object binding pattern
    (`maybeObjBinding !== undefined && maybeObjBinding.isKind(ObjectBindingPattern)`). -/
def isPatName : Option PName → Bool
  | some (.pat _) => true
  | _ => false

def isBlock : FnBody → Bool
  | .block _ => true
  | .exprBody _ => false

/-- The `paramName.startsWith("_")` check, on the character list (a
    one-character prefix check is a head-character check). -/
def startsWithUnderscore (s : String) : Bool := s.toList.head? = some '_'

/-- Replace the binding pattern of the head parameter (the mutation of
    `params[1]`'s name node, which after the removal of `params[0]` is
    the head of the remaining list). -/
def setHeadPat (ps : List Param) (es : List String) : List Param :=
  match ps with
  | [] => []
  | p :: r => ⟨.pat es, p.tyAnn⟩ :: r

/-- `maybePrependReqVar` (update.ts lines 509-609), functionally.

    Steps, in source order:
    1. nothing to do without parameters;
    2. `paramName` is the first parameter's `getName()`; if inferred
       typing was requested but the first parameter carries a type
       annotation, switch to explicit typing (`hasInferredTypes = false`);
    3. `hasRequestVar := params.length > 1 || paramName === "req"`;
    4. if `hasRequestVar` with exactly one parameter, replace the whole
       parameter with `ctx` and — only when *not* in inferred-typing
       mode — set its type to `FreshContext` and add that name to the
       core import set;
    5. otherwise (more than one parameter, or a sole `_req`), remove the
       first parameter; when a second parameter exists and its type
       annotation is literally `RouteContext`, retype it `FreshContext`
       and add that name to the core set;
    6. for arrows with a non-block body: warn and return (parameter
       edits already applied, no statements injected);
    7. when the second binding is absent or not an object pattern,
       `hasRequestVar` holds and the original first name has no `_`
       prefix, prepend `const <paramName> = ctx.req`;
    8. when the second binding is a non-empty object pattern: rename
       each `remoteAddr` element to `info`; if `hasRequestVar` and no
       `_` prefix, splice a `req` element (text-level, before the
       closing brace); if any element was renamed, prepend
       `const remoteAddr = info.remoteAddr`. -/
def maybePrependReqVar (method : FnNode) (newImports : ImportState)
    (hasInferredTypes : Bool) : FnNode × ImportState :=
  match method.params with
  | [] => (method, newImports)
  | p0 :: rest =>
    let paramName := paramNameText p0.pname
    let hit := if hasInferredTypes ∧ p0.tyAnn.isSome then false else hasInferredTypes
    let hasRequestVar : Bool := !rest.isEmpty || paramName == "req"
    let par : List Param × ImportState :=
      if hasRequestVar || paramName == "_req" then
        if hasRequestVar ∧ rest = [] then
          if hit then
            ([⟨.idn "ctx", none⟩], newImports)
          else
            ([⟨.idn "ctx", some "FreshContext"⟩],
              { newImports with core := addName "FreshContext" newImports.core })
        else
          match rest with
          | [] => ([], newImports)
          | p1 :: r2 =>
            if p1.tyAnn = some "RouteContext" then
              (⟨p1.pname, some "FreshContext"⟩ :: r2,
                { newImports with core := addName "FreshContext" newImports.core })
            else
              (p1 :: r2, newImports)
      else
        (p0 :: rest, newImports)
    let maybeObjBinding : Option PName := rest.head?.map (·.pname)
    if method.isArrow && !isBlock method.body then
      ({ method with params := par.1 }, par.2)
    else
      let body1 :=
        if !isPatName maybeObjBinding && hasRequestVar && !startsWithUnderscore paramName then
          prependStmt (constStmt paramName "ctx" "req") method.body
        else method.body
      match maybeObjBinding with
      | some (.pat es) =>
        if es ≠ [] then
          let es1 := es.map fun x => if x = "remoteAddr" then "info" else x
          let needsRemoteAddr := "remoteAddr" ∈ es
          let es2 := if hasRequestVar && !startsWithUnderscore paramName then es1 ++ ["req"] else es1
          let body2 :=
            if needsRemoteAddr then prependStmt (constStmt "remoteAddr" "info" "remoteAddr") body1
            else body1
          ({ method with params := setHeadPat par.1 es2, body := body2 }, par.2)
        else
          ({ method with params := par.1, body := body1 }, par.2)
      | _ => ({ method with params := par.1, body := body1 }, par.2)

/-- Body rewrite step of the orchestrator: `rewriteCtxMethods` over
    `getBody().getDescendantStatements()` (which, for the flat
    fragment, is the block's statement list; an expression body
    contains no statements). -/
def walkBody : FnBody → FnBody
  | .block l => .block (rewriteCtxMethods l)
  | .exprBody e => .exprBody e

/-- The per-handler sequence of `updateFile`: rewrite the body's
    statements, then normalize the parameters. -/
def processFn (hit : Bool) (fn : FnNode) (st : ImportState) : FnNode × ImportState :=
  maybePrependReqVar { fn with body := walkBody fn.body } st hit

/-! ## Exported declarations and the route phase of `updateFile` -/

/-- A property of the exported `handler` object literal:
    a method declaration, a property assignment whose initializer is an
    arrow function or function expression, a property assignment with
    any other initializer, or any other property kind (shorthand,
    spread, accessor) — the latter two are left untouched. -/
inductive PropNode where
  | methodP : String → FnNode → PropNode
  | assignFn : String → FnNode → PropNode
  | assignOther : String → PropNode
  | otherProp : PropNode

/-- An argument of the default-exported wrapper call: a function-like
    argument or any other expression. -/
inductive CallArg where
  | fnArg : FnNode → CallArg
  | otherArg : Expr → CallArg

/-- The payload of an exported declaration, as classified by
    `updateFile` (update.ts lines 302-391): a variable declaration
    whose initializer is an object literal, a variable declaration of
    any other shape, a function declaration, a call expression with an
    identifier callee, or anything else. -/
inductive DeclPayload where
  | handlerObj : List PropNode → DeclPayload
  | varOther : DeclPayload
  | fnDecl : FnNode → DeclPayload
  | wrapperCall : String → List CallArg → DeclPayload
  | otherPayload : DeclPayload

/-- One entry of `getExportedDeclarations()`: the export name and the
    first declaration node for that name. -/
structure ExportedDecl where
  ename : String
  payload : DeclPayload

/-- The five HTTP method names recognized on handler objects. -/
def isHttpMethod (n : String) : Bool :=
  n == "GET" || n == "POST" || n == "PATCH" || n == "PUT" || n == "DELETE"

/-- The three declarative wrapper names recognized for the default
    export. -/
def isDefineWrapper (n : String) : Bool :=
  n == "defineApp" || n == "defineLayout" || n == "defineRoute"

/-- Processing of one property of the `handler` object literal:
    method declarations are rewritten only for the five HTTP method
    names; property assignments with a function-like initializer are
    rewritten regardless of their name.  Both run with inferred
    typing (`true`). -/
def processProp (p : PropNode) (st : ImportState) : PropNode × ImportState :=
  match p with
  | .methodP n fn =>
    if isHttpMethod n then
      let r := processFn true fn st
      (.methodP n r.1, r.2)
    else (.methodP n fn, st)
  | .assignFn n fn =>
    let r := processFn true fn st
    (.assignFn n r.1, r.2)
  | p => (p, st)

def processProps (ps : List PropNode) (st : ImportState) : List PropNode × ImportState :=
  match ps with
  | [] => ([], st)
  | p :: rest =>
    let r := processProp p st
    let rr := processProps rest r.2
    (r.1 :: rr.1, rr.2)

/-- Processing of one exported declaration (update.ts lines 302-391):
    * name `handler`, variable declaration with object-literal
      initializer → process each property;
    * name `handler`, function declaration → rewrite body, then
      normalize parameters with explicit typing (`false`);
    * name `default`, call of `defineApp`/`defineLayout`/`defineRoute`
      with a function-like first argument → same, explicit typing;
    * name `default`, function declaration → same, explicit typing;
    * everything else untouched. -/
def processDecl (d : ExportedDecl) (st : ImportState) : ExportedDecl × ImportState :=
  if d.ename = "handler" then
    match d.payload with
    | .handlerObj props =>
      let r := processProps props st
      (⟨d.ename, .handlerObj r.1⟩, r.2)
    | .fnDecl fn =>
      let r := processFn false fn st
      (⟨d.ename, .fnDecl r.1⟩, r.2)
    | p => (⟨d.ename, p⟩, st)
  else if d.ename = "default" then
    match d.payload with
    | .wrapperCall c args =>
      if isDefineWrapper c then
        match args with
        | .fnArg fn :: rest =>
          let r := processFn false fn st
          (⟨d.ename, .wrapperCall c (.fnArg r.1 :: rest)⟩, r.2)
        | _ => (⟨d.ename, .wrapperCall c args⟩, st)
      else (⟨d.ename, .wrapperCall c args⟩, st)
    | .fnDecl fn =>
      let r := processFn false fn st
      (⟨d.ename, .fnDecl r.1⟩, r.2)
    | p => (⟨d.ename, p⟩, st)
  else (d, st)

/-- The route phase: process every exported declaration in order,
    threading the import state. -/
def runRoutePhase (ds : List ExportedDecl) (st : ImportState) :
    List ExportedDecl × ImportState :=
  match ds with
  | [] => ([], st)
  | d :: rest =>
    let r := processDecl d st
    let rr := runRoutePhase rest r.2
    (r.1 :: rr.1, rr.2)

/-! ## The import rewriter -/

/-- An import declaration: module specifier, named imports in order,
    and whether a default or namespace import is present. -/
structure ImportDecl where
  specifier : String
  named : List String
  hasDefault : Bool
  hasNamespace : Bool
  deriving DecidableEq

/-- The ten legacy compatibility symbols moved to `fresh/compat`
    (update.ts lines 112-123). -/
def compat : List String :=
  [ "defineApp", "defineLayout", "defineRoute", "AppProps", "ErrorPageProps"
  , "Handler", "Handlers", "LayoutProps", "RouteContext", "UnknownPageProps" ]

/-- `removeEmptyImport` (update.ts lines 499-507) as a keep-predicate:
    a declaration is deleted when it has no named, default or
    namespace import. -/
def keepImport (d : ImportDecl) : Bool :=
  !d.named.isEmpty || d.hasDefault || d.hasNamespace

/-- Result of the import-declaration loop. -/
structure ImportLoopOut where
  decls : List ImportDecl
  hasCoreImport : Bool
  hasRuntimeImport : Bool
  modified : Bool
  removedJsxImports : List String
  st : ImportState

/-- The loop over `getImportDeclarations()` (update.ts lines 398-446):
    * specifier `preact`: remove named imports `h` and `Fragment`
      (recording them and setting the `modified` flag), then delete the
      declaration if empty;
    * specifier `$fresh/server.ts`: record a core import, rewrite the
      specifier to `fresh`; every named import is deleted from the core
      set, and those in the `compat` set are moved off the declaration
      into the compat set; then the (remaining) core set's names are
      appended as named imports; delete if empty;
    * specifier `$fresh/runtime.ts`: record a runtime import, rewrite
      the specifier to `fresh/runtime`, delete named imports from the
      runtime set, then append the remaining runtime set's names;
      delete if empty;
    * anything else: untouched. -/
def importLoop (st : ImportState) : List ImportDecl → ImportLoopOut
  | [] => ⟨[], false, false, false, [], st⟩
  | d :: rest =>
    if d.specifier = "preact" then
      let removed := d.named.filter fun n => n == "h" || n == "Fragment"
      let named1 := d.named.filter fun n => !(n == "h" || n == "Fragment")
      let d1 : ImportDecl := { d with named := named1 }
      let r := importLoop st rest
      ⟨(if keepImport d1 then [d1] else []) ++ r.decls,
        r.hasCoreImport, r.hasRuntimeImport,
        (!removed.isEmpty) || r.modified, removed ++ r.removedJsxImports, r.st⟩
    else if d.specifier = "$fresh/server.ts" then
      let core1 := st.core.filter fun n => n ∉ d.named
      let compatAdds := d.named.filter fun n => n ∈ compat
      let kept := d.named.filter fun n => n ∉ compat
      let st1 : ImportState :=
        { st with core := core1, compat := compatAdds.foldl (fun s n => addName n s) st.compat }
      let named1 := if core1 ≠ [] then kept ++ core1 else kept
      let d1 : ImportDecl := { d with specifier := "fresh", named := named1 }
      let r := importLoop st1 rest
      ⟨(if keepImport d1 then [d1] else []) ++ r.decls,
        true, r.hasRuntimeImport, r.modified, r.removedJsxImports, r.st⟩
    else if d.specifier = "$fresh/runtime.ts" then
      let runtime1 := st.runtime.filter fun n => n ∉ d.named
      let st1 : ImportState := { st with runtime := runtime1 }
      let named1 := if runtime1 ≠ [] then d.named ++ runtime1 else d.named
      let d1 : ImportDecl := { d with specifier := "fresh/runtime", named := named1 }
      let r := importLoop st1 rest
      ⟨(if keepImport d1 then [d1] else []) ++ r.decls,
        r.hasCoreImport, true, r.modified, r.removedJsxImports, r.st⟩
    else
      let r := importLoop st rest
      ⟨d :: r.decls, r.hasCoreImport, r.hasRuntimeImport, r.modified,
        r.removedJsxImports, r.st⟩

/-- The synthesis step after the loop (update.ts lines 448-465):
    * no `$fresh/server.ts` import was seen and the core set is
      non-empty → add an import of `fresh` with the core names;
    * no `$fresh/runtime.ts` import was seen and the runtime set is
      non-empty → add an import of `fresh/runtime` whose named imports
      are `Array.from(newImports.core)` — the *core* set's names, as
      written in the source;
    * the compat set is non-empty → add an import of `fresh/compat`
      with the compat names. -/
def synthImports (r : ImportLoopOut) : List ImportDecl :=
  (if !r.hasCoreImport && !r.st.core.isEmpty then
    [⟨"fresh", r.st.core, false, false⟩] else []) ++
  (if !r.hasRuntimeImport && !r.st.runtime.isEmpty then
    [⟨"fresh/runtime", r.st.core, false, false⟩] else []) ++
  (if !r.st.compat.isEmpty then
    [⟨"fresh/compat", r.st.compat, false, false⟩] else [])

/-- The whole import phase of `updateFile`: the loop followed by the
    synthesis of missing declarations (appended after the existing
    imports, as `addImportDeclaration` does). -/
def runImportPhase (imports : List ImportDecl) (st : ImportState) : ImportLoopOut :=
  let r := importLoop st imports
  { r with decls := r.decls ++ synthImports r }

/-! ## Rendering (`getFullText` for the modelled fragment)

The orchestrator decides its "modified" answer by comparing the file's
full text before and after the pass (`finalText !== originalText`).
The render functions below print the modelled tree back to text; the
printing is injective on the model (two distinct trees print
differently), so text comparison of renders coincides with the
source's text comparison. -/

def renderVarDecl (d : VarDecl) : List Char :=
  match d.init with
  | none => d.vname.toList
  | some e => d.vname.toList ++ " = ".toList ++ textOf e

def renderVarDecls : List VarDecl → List Char
  | [] => []
  | [d] => renderVarDecl d
  | d :: d2 :: rest => renderVarDecl d ++ ',' :: ' ' :: renderVarDecls (d2 :: rest)

def renderStmt (s : Stmt) : List Char :=
  match s with
  | .ret none => "return;".toList
  | .ret (some e) => "return ".toList ++ textOf e ++ [';']
  | .varStmt k ds => k.toList ++ ' ' :: renderVarDecls ds ++ [';']
  | .exprStmt e => textOf e ++ [';']

def renderStmts (l : List Stmt) : List Char := (l.map (fun s => renderStmt s ++ ['\n'])).flatten

def renderParam (p : Param) : List Char :=
  (match p.pname with
   | .idn s => s.toList
   | .pat es => renderPatChars es) ++
  (match p.tyAnn with
   | none => []
   | some t => ':' :: ' ' :: t.toList)

def renderParams : List Param → List Char
  | [] => []
  | [p] => renderParam p
  | p :: p2 :: rest => renderParam p ++ ',' :: ' ' :: renderParams (p2 :: rest)

def renderBody : FnBody → List Char
  | .block l => '\x7b' :: '\n' :: (renderStmts l ++ ['\x7d'])
  | .exprBody e => textOf e

def renderFn (fn : FnNode) : List Char :=
  (if fn.isArrow then "".toList else "function ".toList) ++
  '(' :: renderParams fn.params ++ ')' ::
  (if fn.isArrow then " => ".toList else " ".toList) ++ renderBody fn.body

def renderProp (p : PropNode) : List Char :=
  match p with
  | .methodP n fn => n.toList ++ renderFn fn
  | .assignFn n fn => n.toList ++ ':' :: ' ' :: renderFn fn
  | .assignOther n => n.toList ++ ": 0".toList
  | .otherProp => "#other".toList

def renderProps (l : List PropNode) : List Char :=
  (l.map (fun p => renderProp p ++ [',', '\n'])).flatten

def renderCallArg : CallArg → List Char
  | .fnArg fn => renderFn fn
  | .otherArg e => textOf e

def renderCallArgs : List CallArg → List Char
  | [] => []
  | [a] => renderCallArg a
  | a :: a2 :: rest => renderCallArg a ++ ',' :: ' ' :: renderCallArgs (a2 :: rest)

def renderPayload : DeclPayload → List Char
  | .handlerObj props => '\x7b' :: '\n' :: (renderProps props ++ ['\x7d'])
  | .varOther => "/*var*/".toList
  | .fnDecl fn => renderFn fn
  | .wrapperCall c args => c.toList ++ '(' :: renderCallArgs args ++ [')']
  | .otherPayload => "/*other*/".toList

def renderDecl (d : ExportedDecl) : List Char :=
  "export ".toList ++ d.ename.toList ++ ' ' :: renderPayload d.payload ++ ['\n']

def renderNamedImports : List String → List Char
  | [] => []
  | [n] => n.toList
  | n :: n2 :: rest => n.toList ++ ',' :: ' ' :: renderNamedImports (n2 :: rest)

def renderImport (d : ImportDecl) : List Char :=
  "import ".toList ++
  (if d.hasDefault then "d, ".toList else []) ++
  (if d.hasNamespace then "* as ns, ".toList else []) ++
  '\x7b' :: ' ' :: (renderNamedImports d.named ++ " \x7d from \"".toList) ++
  d.specifier.toList ++ "\";\n".toList

/-! ## The per-file orchestrator `updateFile` -/

/-- One source file of the modelled fragment: its path, the raw leading
    text before the first structural item (where the directive comments
    live; a file consisting only of comments is all `headText`), the
    the import declarations and the exported declarations. -/
structure SourceFile where
  path : List Char
  headText : List Char
  imports : List ImportDecl
  decls : List ExportedDecl

def renderFile (f : SourceFile) : List Char :=
  f.headText ++ (f.imports.map renderImport).flatten ++ (f.decls.map renderDecl).flatten

/-- The path gate for the handler-rewriting phase (update.ts lines
    298-301): the file path contains `/routes/` and the directory path
    does not contain `/(_`. -/
def routeOk (p : List Char) : Bool :=
  jsIncludes p ("/routes/".toList) && !(jsIncludes (dirOf p) ("/(_".toList))

/-- `updateFile` (update.ts lines 264-497):
    1. strip the directive-comment patterns from the text
       (`replaceAll` chain) and re-parse if changed;
    2. if the path qualifies, run the handler phase over the exported
       declarations, accumulating the `ImportState` sets (fresh per
       file);
    3. run the import loop and the synthesis of missing imports;
    4. save; the returned flag is
       `finalText !== originalText || modified`, where `modified` is
       set by the removal of `h`/`Fragment` named imports. -/
def updateFile (f : SourceFile) : SourceFile × Bool :=
  let f1 : SourceFile := { f with headText := stripDirectives f.headText }
  let st0 : ImportState := ⟨[], [], []⟩
  let route := if routeOk f1.path then runRoutePhase f1.decls st0 else (f1.decls, st0)
  let ir := runImportPhase f1.imports route.2
  let f2 : SourceFile := { f1 with decls := route.1, imports := ir.decls }
  (f2, (!(renderFile f2 == renderFile f)) || ir.modified)

/-! ## The manifest updater (`updateDenoJson` and its edit script)

`deno.json` documents are modelled by the `DenoJson` interface shape of
update.ts (lines 12-18).  JS objects preserve key insertion order; the
`imports` and `tasks` maps are therefore insertion-ordered association
lists (`setKey` updates in place or appends, matching property
assignment).  Top-level key order is fixed to the interface order —
both runs of the edit script render the same key order either way, so
this is sound for the round-trip behaviour.  The cleanup loop that
deletes keys whose value became `undefined`, and `JSON.stringify`'s
skipping of `undefined` values, are both captured by the `Option`
fields: a `none` field is simply not rendered. -/

def FRESH_VERSION : String := "2.0.0-alpha.34"
def PREACT_VERSION : String := "10.26.6"
def PREACT_SIGNALS_VERSION : String := "2.0.4"

def freshPin : String := "jsr:@fresh/core@^" ++ FRESH_VERSION
def preactPin : String := "npm:preact@^" ++ PREACT_VERSION
def signalsPin : String := "npm:@preact/signals@^" ++ PREACT_SIGNALS_VERSION

/-- The legacy task strings matched exactly (update.ts lines 148-174);
    apostrophes are written with the `\x27` escape. -/
def manifestLegacy : String := "deno task cli manifest $(pwd)"
def cliLegacy1 : String :=
  "echo \"import \x27\\$fresh/src/dev/cli.ts\x27\" | deno run --unstable -A -"
def cliLegacy2 : String :=
  "echo \"import \x27$fresh/src/dev/cli.ts\x27\" | deno run --unstable -A -"
def updateLegacy : String := "deno run -A -r https://fresh.deno.dev/update ."
def updateReplacement : String := "deno run -A -r jsr:@fresh/update ."
def checkLegacy : String :=
  "deno fmt --check && deno lint && deno check **/*.ts && deno check **/*.tsx"
def checkReplacement : String := "deno fmt --check && deno lint && deno check"

/-- The value of the `imports` key: JSONC `null`, or an object. -/
inductive ImportsVal where
  | nullV : ImportsVal
  | obj : List (String × String) → ImportsVal
  deriving DecidableEq

/-- The accepted manifest shape (the `DenoJson` interface). -/
structure DenoJson where
  lock : Option Bool
  tasks : Option (List (String × String))
  name : Option String
  version : Option String
  imports : Option ImportsVal
  deriving DecidableEq

/-- JS property assignment `m[k] = v`: update in place if the key
    exists (keys of a JS object are unique, so updating the first
    occurrence is updating the occurrence), append otherwise. -/
def setKey (k v : String) : List (String × String) → List (String × String)
  | [] => [(k, v)]
  | (a, b) :: t => if a = k then (a, v) :: t else (a, b) :: setKey k v t

/-- JS `delete m[k]`. -/
def delKey (k : String) (l : List (String × String)) : List (String × String) :=
  l.filter fun kv => kv.1 ≠ k

/-- The four task-edit steps, named individually (each is one `if` of
    the edit callback; `editTasks` below is definitionally their
    composition). -/
def etManifest (t : List (String × String)) : List (String × String) :=
  if t.lookup "manifest" = some manifestLegacy then delKey "manifest" t else t

def etCli (t : List (String × String)) : List (String × String) :=
  if t.lookup "cli" = some cliLegacy1 ∨ t.lookup "cli" = some cliLegacy2 then
    delKey "cli" t
  else t

def etUpdate (t : List (String × String)) : List (String × String) :=
  if t.lookup "update" = some updateLegacy then setKey "update" updateReplacement t else t

def etCheck (t : List (String × String)) : List (String × String) :=
  if t.lookup "check" = some checkLegacy then setKey "check" checkReplacement t else t

/-- The task edits (update.ts lines 148-174). -/
def editTasks (t : List (String × String)) : List (String × String) :=
  let t1 := if t.lookup "manifest" = some manifestLegacy then delKey "manifest" t else t
  let t2 :=
    if t1.lookup "cli" = some cliLegacy1 ∨ t1.lookup "cli" = some cliLegacy2 then
      delKey "cli" t1
    else t1
  let t3 :=
    if t2.lookup "update" = some updateLegacy then setKey "update" updateReplacement t2 else t2
  if t3.lookup "check" = some checkLegacy then setKey "check" checkReplacement t3 else t3

/-- The edits applied to the `imports` map: set the three version
    pins, then delete the three superseded keys. -/
def editImportsMap (entries : List (String × String)) : List (String × String) :=
  delKey "preact-render-to-string" (delKey "@preact/signals-core" (delKey "$fresh/"
    (setKey "@preact/signals" signalsPin (setKey "preact" preactPin
      (setKey "fresh" freshPin entries)))))

/-- The edit callback passed to `updateDenoJson` by `updateProject`
    (update.ts lines 130-175).  A missing `imports` key is reset to an
    empty object (`undefined !== null` and `typeof undefined` is not
    `"object"`); a `null` value slips through the guard and the
    subsequent property assignment throws a `TypeError`, modelled by
    `none`.  The `lock` key is deleted whenever present; three version
    pins are set, three superseded import keys deleted, and the legacy
    task strings rewritten. -/
def editConfig (c : DenoJson) : Option DenoJson :=
  let imp0 : ImportsVal :=
    match c.imports with
    | none => .obj []
    | some v => v
  match imp0 with
  | .nullV => none
  | .obj entries =>
    some { lock := none
         , tasks := c.tasks.map editTasks
         , name := c.name
         , version := c.version
         , imports := some (.obj (editImportsMap entries)) }

/-- JSON string escaping for `JSON.stringify`. -/
def jsonEscapeChar (c : Char) : List Char :=
  if c = '\\' then ['\\', '\\']
  else if c = '"' then ['\\', '"']
  else if c = '\n' then ['\\', 'n']
  else [c]

def jsonQuote (s : String) : List Char :=
  '"' :: (s.toList.map jsonEscapeChar).flatten ++ ['"']

/-- One `"key": "value"` entry of a nested map at indent 4. -/
def renderEntry (kv : String × String) : List Char :=
  "    ".toList ++ jsonQuote kv.1 ++ ':' :: ' ' :: jsonQuote kv.2

def joinCommaNl : List (List Char) → List Char
  | [] => []
  | [l] => l
  | l :: l2 :: rest => l ++ ',' :: '\n' :: joinCommaNl (l2 :: rest)

/-- A nested object value at top-level indent 2
    (`JSON.stringify(..., null, 2)` formatting). -/
def renderMapVal (l : List (String × String)) : List Char :=
  match l with
  | [] => ['\x7b', '\x7d']
  | _ => '\x7b' :: '\n' :: (joinCommaNl (l.map renderEntry) ++ '\n' :: "  ".toList ++ ['\x7d'])

def renderImportsVal : ImportsVal → List Char
  | .nullV => "null".toList
  | .obj l => renderMapVal l

/-- The top-level fields present in the document, rendered at indent 2,
    in the interface order. -/
def denoJsonFields (c : DenoJson) : List (List Char) :=
  (match c.lock with
   | none => []
   | some b => ["  \"lock\": ".toList ++ (if b then "true".toList else "false".toList)]) ++
  (match c.tasks with
   | none => []
   | some t => ["  \"tasks\": ".toList ++ renderMapVal t]) ++
  (match c.name with
   | none => []
   | some s => ["  \"name\": ".toList ++ jsonQuote s]) ++
  (match c.version with
   | none => []
   | some s => ["  \"version\": ".toList ++ jsonQuote s]) ++
  (match c.imports with
   | none => []
   | some v => ["  \"imports\": ".toList ++ renderImportsVal v])

def serializeMid (c : DenoJson) : List Char :=
  match denoJsonFields c with
  | [] => []
  | fs => '\n' :: (joinCommaNl fs ++ ['\n'])

/-- `JSON.stringify(json, null, 2)`. -/
def serializeDenoJson (c : DenoJson) : List Char :=
  '\x7b' :: (serializeMid c ++ ['\x7d'])

/-- One application of `updateDenoJson` (update.ts lines 39-104) on an
    already-located manifest, at the document level: `originalContent`
    is the file's text and `json` its JSONC parse.  The edit callback
    runs (`none` models a thrown `TypeError`); the document is
    re-serialized, and the file is written back — with a trailing
    newline — only if the new serialization differs from
    `originalContent.trim()`.  Returns the `updated` flag, the edited
    document, and the content on disk afterwards. -/
def updateDenoJsonStep (originalContent : List Char) (json : DenoJson) :
    Option (Bool × DenoJson × List Char) :=
  match editConfig json with
  | none => none
  | some j2 =>
    let newContent := serializeDenoJson j2
    if newContent ≠ jsTrim originalContent then some (true, j2, newContent ++ ['\n'])
    else some (false, j2, originalContent)

/-! ## Per-file error aggregation of `updateProject` (phase 2)

The driver maps every discovered source file to an independently
launched task (`Promise.all(sfs.map(...))`); each task wraps its
`updateFile` call in a try/catch and *returns* a result object in both
branches, so no task's failure can reject the combined promise or
cancel another task.  The per-file computation — which may throw — is
modelled as a function into `Except`. -/

structure FileResult where
  success : Bool
  modified : Bool
  fpath : String
  deriving DecidableEq

structure RunSummary where
  filesProcessed : Nat
  filesModified : Nat
  errors : Nat
  deriving DecidableEq

/-- The `Promise.all` body (update.ts lines 200-225): one result record
    per file, in order, `success := false` on a thrown error. -/
def processFiles (upd : String → Except String Bool) (paths : List String) :
    List FileResult :=
  paths.map fun p =>
    match upd p with
    | .ok m => ⟨true, m, p⟩
    | .error _ => ⟨false, false, p⟩

/-- The summary computed after all results are in (update.ts lines
    227-261): `processedCount`/`modifiedCount` are incremented only
    inside the try block, and `errors` is the length of the filtered
    failure list. -/
def phase2Summary (upd : String → Except String Bool) (paths : List String) : RunSummary :=
  let results := processFiles upd paths
  { filesProcessed := (results.filter (fun r => r.success)).length
  , filesModified := (results.filter (fun r => r.success && r.modified)).length
  , errors := (results.filter (fun r => !r.success)).length }

/-- The failing paths reported after the join (update.ts lines 228-241). -/
def phase2ErrorPaths (upd : String → Except String Bool) (paths : List String) : List String :=
  ((processFiles upd paths).filter (fun r => !r.success)).map (·.fpath)

/-! ## Syntactic conditions under which the rewrite pass is idempotent

The full pass is *not* idempotent in general (see the `C1` theorems
below).  The predicates here carve out the files on which it is:
* `inertAccess`: no rewrite fires anywhere along a property-access
  chain;
* `goodAccess`: a second application of `rewriteCtxMemberName` to the
  result of a first one changes nothing — the one dangerous shape is a
  `renderNotFound` access whose receiver still contains a rewritable
  chain (the `renderNotFound` branch does not recurse into its
  receiver, leaving such a chain for the next run);
* `goodParams`: at most two parameters, and a second parameter (about
  to become the sole one) not named `req` or `_req` — otherwise the
  next run normalizes again. -/

def inertAccess : Expr → Bool
  | .propAccess r n =>
    if textOf r = "ctx".toList ∧ n = "remoteAddr" then false
    else if n = "renderNotFound" then false
    else inertAccess r
  | _ => true

def goodAccess : Expr → Bool
  | .propAccess r n =>
    if textOf r = "ctx".toList ∧ n = "remoteAddr" then true
    else if n = "renderNotFound" then inertAccess r
    else goodAccess r
  | _ => true

def goodWalk : Expr → Bool
  | .propAccess r n => goodAccess (.propAccess r n)
  | .call f _ => goodWalk f
  | .awaitE e => goodWalk e
  | .binary l _ r => goodWalk l && goodWalk r
  | _ => true

def goodStmt : Stmt → Bool
  | .ret none => true
  | .ret (some e) => goodWalk e
  | .varStmt _ ds => ds.all fun d =>
      match d.init with
      | none => true
      | some e => goodWalk e
  | .exprStmt e => goodWalk e

def goodParams : List Param → Bool
  | [] => true
  | [_] => true
  | [_, q] =>
    match q.pname with
    | .idn s => ¬(s = "req" ∨ s = "_req")
    | .pat _ => true
  | _ :: _ :: _ :: _ => false

def goodBody : FnBody → Bool
  | .block l => l.all goodStmt
  | .exprBody _ => true

def goodFn (fn : FnNode) : Bool := goodParams fn.params && goodBody fn.body

def goodProp : PropNode → Bool
  | .methodP n fn => !isHttpMethod n || goodFn fn
  | .assignFn _ fn => goodFn fn
  | _ => true

def goodPayloadHandler : DeclPayload → Bool
  | .handlerObj props => props.all goodProp
  | .fnDecl fn => goodFn fn
  | _ => true

def goodPayloadDefault : DeclPayload → Bool
  | .wrapperCall c args =>
    !isDefineWrapper c ||
      (match args with
       | .fnArg fn :: _ => goodFn fn
       | _ => true)
  | .fnDecl fn => goodFn fn
  | _ => true

def goodDecl (d : ExportedDecl) : Bool :=
  if d.ename = "handler" then goodPayloadHandler d.payload
  else if d.ename = "default" then goodPayloadDefault d.payload
  else true

/-- The condition under which `updateFile` is idempotent (the amended
    C1): the directive stripping has reached a fixed point after one
    pass, and (when the handler phase applies) every rewritten handler
    has a good parameter list and a good body. -/
def migratable (f : SourceFile) : Bool :=
  (stripDirectives (stripDirectives f.headText) == stripDirectives f.headText) &&
  (!routeOk f.path || f.decls.all goodDecl)

/-- The specifier renaming performed by the import loop. -/
def renameSpec (s : String) : String :=
  if s = "$fresh/server.ts" then "fresh"
  else if s = "$fresh/runtime.ts" then "fresh/runtime"
  else s

/-- Invariant of the import declarations produced by one run of the
    rewriting phase: no legacy specifier remains, and a surviving
    `preact` declaration carries neither `h` nor `Fragment` and is
    non-empty. -/
def importStable (d : ImportDecl) : Bool :=
  !(d.specifier == "$fresh/server.ts") && !(d.specifier == "$fresh/runtime.ts") &&
  (if d.specifier = "preact" then
     (d.named.all fun n => !(n == "h" || n == "Fragment")) && keepImport d
   else true)

/-! ### Concrete inputs used by the counterexamples and witnesses -/

/-- A source file consisting only of comment text, on which the
    directive stripping cascades: removing the inner
    `/** @jsx h */\n` occurrence splices the surrounding text into a
    fresh occurrence of the same pattern. -/
def cascadeFile : SourceFile :=
  ⟨"/p/a.ts".toList,
    "/** @jsx h ".toList ++ "/** @jsx h */\n".toList ++ "*/\n".toList,
    [], []⟩

/-- A migratable route file (witness for the amended C1). -/
def witnessRouteFile : SourceFile :=
  ⟨"/app/routes/index.tsx".toList,
    "/** @jsx h */\n".toList,
    [⟨"$fresh/server.ts", ["Handlers"], false, false⟩],
    [⟨"handler", .handlerObj
        [.methodP "GET" ⟨false, [⟨.idn "req", none⟩], .block [.ret (some (.ident "req"))]⟩]⟩]⟩

/-- A file that already imports from `fresh` and whose route handler
    forces the synthesis of a second `fresh` import (counterexample
    for C2). -/
def dupImportFile : SourceFile :=
  ⟨"/p/routes/a.ts".toList, [],
    [⟨"fresh", ["App"], false, false⟩],
    [⟨"handler", .fnDecl ⟨false, [⟨.idn "req", none⟩], .block []⟩⟩]⟩

/-- Witness file for the amended C2. -/
def witnessC2File : SourceFile :=
  ⟨"/p/routes/b.ts".toList, [],
    [⟨"$fresh/server.ts", ["Handlers", "App"], false, false⟩,
     ⟨"preact", ["h", "useState"], false, false⟩],
    [⟨"handler", .fnDecl ⟨false, [⟨.idn "req", none⟩], .block []⟩⟩]⟩

/-- Manifest witness inputs (C8): an arbitrary original content and a
    minimal parsed document. -/
def c8Content0 : List Char := "x".toList
def c8Doc0 : DenoJson := ⟨none, none, none, none, none⟩
def c8Doc1 : DenoJson := (editConfig c8Doc0).getD c8Doc0
def c8Content1 : List Char := serializeDenoJson c8Doc1 ++ ['\n']

/-! ## Lemmas about the member-access rewriter -/

/-- Unfolding equation for `rewriteCtxMemberName` on a property access
    (the equation compiler splits the definition by the receiver's
    constructor; this lemma restores the one-step unfolding). -/
theorem rwName_pa (r : Expr) (n : String) :
    rewriteCtxMemberName (.propAccess r n)
      = if textOf r = "ctx".toList ∧ n = "remoteAddr" then
          (.propAccess (.propAccess (.propAccess (.ident "ctx") "info") "remoteAddr")
            "remoteAddr", false)
        else if n = "renderNotFound" then
          (.propAccess r "throw", true)
        else
          match r with
          | .propAccess a b => (.propAccess (rewriteCtxMemberName (.propAccess a b)).1 n, false)
          | _ => (.propAccess r n, false) := by
  cases r with
  | propAccess a b => exact rewriteCtxMemberName.eq_1 n a b
  | ident s => exact rewriteCtxMemberName.eq_2 _ _ (fun a b h => by cases h)
  | call f args => exact rewriteCtxMemberName.eq_2 _ _ (fun a b h => by cases h)
  | awaitE e => exact rewriteCtxMemberName.eq_2 _ _ (fun a b h => by cases h)
  | binary l op rr => exact rewriteCtxMemberName.eq_2 _ _ (fun a b h => by cases h)
  | lit s => exact rewriteCtxMemberName.eq_2 _ _ (fun a b h => by cases h)

/-- Unfolding equation for `inertAccess` on a property access. -/
theorem inertAccess_pa (r : Expr) (n : String) :
    inertAccess (.propAccess r n)
      = if textOf r = "ctx".toList ∧ n = "remoteAddr" then false
        else if n = "renderNotFound" then false
        else inertAccess r := rfl

/-- Unfolding equation for `goodAccess` on a property access. -/
theorem goodAccess_pa (r : Expr) (n : String) :
    goodAccess (.propAccess r n)
      = if textOf r = "ctx".toList ∧ n = "remoteAddr" then true
        else if n = "renderNotFound" then inertAccess r
        else goodAccess r := rfl

theorem rwName_rnf (r : Expr) :
    rewriteCtxMemberName (.propAccess r "renderNotFound") = (.propAccess r "throw", true) := by
  have h : ¬(textOf r = "ctx".toList ∧ ("renderNotFound" : String) = "remoteAddr") := by
    rintro ⟨-, h⟩
    exact absurd h (by decide)
  rw [rwName_pa, if_neg h, if_pos rfl]

theorem inert_rwName : ∀ e : Expr, inertAccess e = true →
    rewriteCtxMemberName e = (e, false)
  | .propAccess r n => by
    intro h
    rw [inertAccess_pa] at h
    split at h
    · exact absurd h (by simp)
    · split at h
      · exact absurd h (by simp)
      · rename_i h1 h2
        rw [rwName_pa, if_neg h1, if_neg h2]
        cases r with
        | propAccess a b =>
          show ((rewriteCtxMemberName (.propAccess a b)).1.propAccess n, false)
              = ((Expr.propAccess a b).propAccess n, false)
          rw [inert_rwName (.propAccess a b) h]
        | ident s => rfl
        | call f args => rfl
        | awaitE e => rfl
        | binary l op rr => rfl
        | lit s => rfl
  | .ident s => fun _ => rfl
  | .call f args => fun _ => rfl
  | .awaitE e => fun _ => rfl
  | .binary l op r => fun _ => rfl
  | .lit s => fun _ => rfl

/-- The rewriter maps property accesses to property accesses. -/
theorem rwName_pa_shape (a : Expr) (b : String) :
    ∃ x y, (rewriteCtxMemberName (.propAccess a b)).1 = .propAccess x y := by
  rw [rwName_pa]
  split
  · exact ⟨_, _, rfl⟩
  · split
    · exact ⟨a, "throw", rfl⟩
    · cases a <;> exact ⟨_, _, rfl⟩

/-- The text of a property access contains a dot, so it is never the
    bare identifier text `ctx`. -/
theorem textOf_pa_ne_ctx (x : Expr) (y : String) :
    textOf (.propAccess x y) ≠ "ctx".toList := by
  intro h
  have hd : '.' ∈ textOf (.propAccess x y) := by
    simp only [textOf]
    exact List.mem_append_right _ (List.mem_cons_self _ _)
  rw [h] at hd
  exact absurd hd (by decide)

/-- A second application of the rewriter to the output of a first one
    is the identity (with a quiet flag), provided the input is good. -/
theorem rwName_stable : ∀ e : Expr, goodAccess e = true →
    rewriteCtxMemberName (rewriteCtxMemberName e).1 = ((rewriteCtxMemberName e).1, false)
  | .propAccess r n => by
    intro h
    rw [goodAccess_pa] at h
    by_cases h1 : textOf r = "ctx".toList ∧ n = "remoteAddr"
    · -- branch 1: the result is the concrete chain ctx.info.remoteAddr.remoteAddr
      rw [rwName_pa, if_pos h1]
      rfl
    · rw [if_neg h1] at h
      by_cases h2 : n = "renderNotFound"
      · -- branch 2: name replaced by throw; the receiver must be inert
        rw [if_pos h2] at h
        subst h2
        rw [rwName_rnf r]
        show rewriteCtxMemberName (.propAccess r "throw") = (.propAccess r "throw", false)
        have h1' : ¬(textOf r = "ctx".toList ∧ ("throw" : String) = "remoteAddr") := by
          rintro ⟨-, hh⟩
          exact absurd hh (by decide)
        rw [rwName_pa, if_neg h1', if_neg (by decide : ¬("throw" : String) = "renderNotFound")]
        cases r with
        | propAccess a b =>
          show ((rewriteCtxMemberName (.propAccess a b)).1.propAccess "throw", false)
              = ((Expr.propAccess a b).propAccess "throw", false)
          rw [inert_rwName (.propAccess a b) h]
        | ident s => rfl
        | call f args => rfl
        | awaitE e => rfl
        | binary l op rr => rfl
        | lit s => rfl
      · -- branch 3/4: recurse into the receiver
        rw [if_neg h2] at h
        cases r with
        | propAccess a b =>
          have hrec := rwName_stable (.propAccess a b) h
          obtain ⟨x, y, hxy⟩ := rwName_pa_shape a b
          have e1 : rewriteCtxMemberName (.propAccess (.propAccess a b) n)
              = (.propAccess (.propAccess x y) n, false) := by
            rw [rwName_pa, if_neg h1, if_neg h2]
            show ((rewriteCtxMemberName (.propAccess a b)).1.propAccess n, false)
                = ((Expr.propAccess x y).propAccess n, false)
            rw [hxy]
          rw [e1]
          show rewriteCtxMemberName (.propAccess (.propAccess x y) n)
              = (.propAccess (.propAccess x y) n, false)
          have h1' : ¬(textOf (Expr.propAccess x y) = "ctx".toList ∧ n = "remoteAddr") := by
            rintro ⟨hc, -⟩
            exact textOf_pa_ne_ctx x y hc
          rw [hxy] at hrec
          rw [rwName_pa, if_neg h1', if_neg h2]
          show ((rewriteCtxMemberName (.propAccess x y)).1.propAccess n, false)
              = ((Expr.propAccess x y).propAccess n, false)
          rw [hrec]
        | ident s =>
          rw [rwName_pa, if_neg h1, if_neg h2]
          show rewriteCtxMemberName ((Expr.ident s).propAccess n)
              = ((Expr.ident s).propAccess n, false)
          rw [rwName_pa, if_neg h1, if_neg h2]
        | call f args =>
          rw [rwName_pa, if_neg h1, if_neg h2]
          show rewriteCtxMemberName ((Expr.call f args).propAccess n)
              = ((Expr.call f args).propAccess n, false)
          rw [rwName_pa, if_neg h1, if_neg h2]
        | awaitE e =>
          rw [rwName_pa, if_neg h1, if_neg h2]
          show rewriteCtxMemberName ((Expr.awaitE e).propAccess n)
              = ((Expr.awaitE e).propAccess n, false)
          rw [rwName_pa, if_neg h1, if_neg h2]
        | binary l op rr =>
          rw [rwName_pa, if_neg h1, if_neg h2]
          show rewriteCtxMemberName ((Expr.binary l op rr).propAccess n)
              = ((Expr.binary l op rr).propAccess n, false)
          rw [rwName_pa, if_neg h1, if_neg h2]
        | lit s =>
          rw [rwName_pa, if_neg h1, if_neg h2]
          show rewriteCtxMemberName ((Expr.lit s).propAccess n)
              = ((Expr.lit s).propAccess n, false)
          rw [rwName_pa, if_neg h1, if_neg h2]
  | .ident s => fun _ => rfl
  | .call f args => fun _ => rfl
  | .awaitE e => fun _ => rfl
  | .binary l op r => fun _ => rfl
  | .lit s => fun _ => rfl

/-! ## Lemmas about the statement walker -/

theorem walkExpr_call_nonpa (f : Expr) (args : List Expr)
    (hf : ∀ a b, f ≠ .propAccess a b) :
    walkExpr (.call f args) = .call (walkExpr f) args := by
  cases f with
  | propAccess a b => exact absurd rfl (hf a b)
  | ident s => rfl
  | call g as => rfl
  | awaitE g => rfl
  | binary l op r => rfl
  | lit s => rfl

theorem walkExpr_nonpa (f : Expr) (hf : ∀ a b, f ≠ .propAccess a b) :
    ∀ a b, walkExpr f ≠ .propAccess a b := by
  cases f with
  | propAccess a b => exact absurd rfl (hf a b)
  | ident s => intro a b h; cases h
  | call g as =>
    intro a b h
    cases g with
    | propAccess x y =>
      rw [show walkExpr (.call (.propAccess x y) as)
            = .call (rewriteCtxMemberName (.propAccess x y)).1
                (if (rewriteCtxMemberName (.propAccess x y)).2 then as ++ [.lit "404"] else as)
          from rfl] at h
      cases h
    | ident s => cases h
    | call g2 as2 => cases h
    | awaitE g2 => cases h
    | binary l op r => cases h
    | lit s => cases h
  | awaitE g => intro a b h; cases h
  | binary l op r => intro a b h; cases h
  | lit s => intro a b h; cases h

/-- A second application of the walker to the output of a first one is
    the identity, on good expressions. -/
theorem walk_idem : ∀ e : Expr, goodWalk e = true → walkExpr (walkExpr e) = walkExpr e
  | .propAccess r n => by
    intro h
    have hst := rwName_stable (.propAccess r n) h
    obtain ⟨x, y, hxy⟩ := rwName_pa_shape r n
    show walkExpr ((rewriteCtxMemberName (.propAccess r n)).1)
        = (rewriteCtxMemberName (.propAccess r n)).1
    rw [hxy]
    show (rewriteCtxMemberName (.propAccess x y)).1 = Expr.propAccess x y
    rw [hxy] at hst
    rw [hst]
  | .call f args => by
    intro h
    have hgood : goodWalk f = true := h
    cases f with
    | propAccess a b =>
      have hst := rwName_stable (.propAccess a b) hgood
      obtain ⟨x, y, hxy⟩ := rwName_pa_shape a b
      show walkExpr (.call (rewriteCtxMemberName (.propAccess a b)).1
          (if (rewriteCtxMemberName (.propAccess a b)).2 then args ++ [.lit "404"] else args))
        = .call (rewriteCtxMemberName (.propAccess a b)).1
          (if (rewriteCtxMemberName (.propAccess a b)).2 then args ++ [.lit "404"] else args)
      rw [hxy]
      rw [hxy] at hst
      show Expr.call (rewriteCtxMemberName (.propAccess x y)).1
          (if (rewriteCtxMemberName (.propAccess x y)).2 then _ ++ [.lit "404"] else _)
        = _
      rw [hst]
      rfl
    | ident s => rfl
    | call g as =>
      rw [walkExpr_call_nonpa (.call g as) args (fun a b h => by cases h)]
      rw [walkExpr_call_nonpa (walkExpr (.call g as)) args
        (walkExpr_nonpa (.call g as) (fun a b h => by cases h))]
      rw [walk_idem (.call g as) hgood]
    | awaitE g =>
      rw [walkExpr_call_nonpa (.awaitE g) args (fun a b h => by cases h)]
      rw [walkExpr_call_nonpa (walkExpr (.awaitE g)) args
        (walkExpr_nonpa (.awaitE g) (fun a b h => by cases h))]
      rw [walk_idem (.awaitE g) hgood]
    | binary l op r =>
      rw [walkExpr_call_nonpa (.binary l op r) args (fun a b h => by cases h)]
      rw [walkExpr_call_nonpa (walkExpr (.binary l op r)) args
        (walkExpr_nonpa (.binary l op r) (fun a b h => by cases h))]
      rw [walk_idem (.binary l op r) hgood]
    | lit s => rfl
  | .awaitE e => by
    intro h
    show Expr.awaitE (walkExpr (walkExpr e)) = .awaitE (walkExpr e)
    rw [walk_idem e h]
  | .binary l op r => by
    intro h
    rw [goodWalk] at h
    rw [Bool.and_eq_true] at h
    show Expr.binary (walkExpr (walkExpr l)) op (walkExpr (walkExpr r))
        = .binary (walkExpr l) op (walkExpr r)
    rw [walk_idem l h.1, walk_idem r h.2]
  | .ident s => fun _ => rfl
  | .lit s => fun _ => rfl

theorem walkStmt_idem (s : Stmt) (h : goodStmt s = true) :
    walkStmt (walkStmt s) = walkStmt s := by
  cases s with
  | ret oe =>
    cases oe with
    | none => rfl
    | some e =>
      show Stmt.ret (some (walkExpr (walkExpr e))) = .ret (some (walkExpr e))
      rw [walk_idem e h]
  | varStmt k ds =>
    show Stmt.varStmt k (List.map _ (List.map _ ds)) = Stmt.varStmt k (List.map _ ds)
    rw [List.map_map]
    refine congrArg _ (List.map_congr_left fun d hd => ?_)
    have hda : (match d.init with | none => true | some e => goodWalk e) = true := by
      rw [goodStmt] at h
      exact List.all_eq_true.mp h d hd
    show (⟨d.vname, Option.map walkExpr (Option.map walkExpr d.init)⟩ : VarDecl)
        = ⟨d.vname, Option.map walkExpr d.init⟩
    cases hi : d.init with
    | none => rfl
    | some e =>
      rw [hi] at hda
      show (⟨d.vname, some (walkExpr (walkExpr e))⟩ : VarDecl) = ⟨d.vname, some (walkExpr e)⟩
      rw [walk_idem e hda]
  | exprStmt e =>
    show Stmt.exprStmt (walkExpr (walkExpr e)) = .exprStmt (walkExpr e)
    rw [walk_idem e h]

theorem rewriteCtxMethods_idem (l : List Stmt) (h : l.all goodStmt = true) :
    rewriteCtxMethods (rewriteCtxMethods l) = rewriteCtxMethods l := by
  simp only [rewriteCtxMethods, List.map_map]
  refine List.map_congr_left fun s hs => ?_
  exact walkStmt_idem s (List.all_eq_true.mp h s hs)

/-- The injected `const <nm> = ctx.req` declaration is a fixed point of
    the walker. -/
theorem walkStmt_const_req (nm : String) :
    walkStmt (constStmt nm "ctx" "req") = constStmt nm "ctx" "req" := rfl

/-- The injected `const remoteAddr = info.remoteAddr` declaration is a
    fixed point of the walker. -/
theorem walkStmt_const_remote (nm : String) :
    walkStmt (constStmt nm "info" "remoteAddr") = constStmt nm "info" "remoteAddr" := rfl

/-! ## Lemmas about the parameter normalizer -/

/-- The rendered text of an object binding pattern starts with a brace,
    so it is never the identifier text `req` or `_req`. -/
theorem patName_ne (es : List String) :
    paramNameText (.pat es) ≠ "req" ∧ paramNameText (.pat es) ≠ "_req" := by
  constructor <;>
  · intro hcon
    have hd : (paramNameText (.pat es)).toList.head? = some '\x7b' := rfl
    rw [hcon] at hd
    exact absurd hd (by decide)

/-- The normalizer does nothing on a function without parameters, or
    with a sole parameter not named `req` or `_req`. -/
theorem mppr_noop (fn : FnNode) (st : ImportState) (hit : Bool)
    (h : fn.params = [] ∨
      ∃ p, fn.params = [p] ∧ paramNameText p.pname ≠ "req" ∧ paramNameText p.pname ≠ "_req") :
    maybePrependReqVar fn st hit = (fn, st) := by
  obtain ⟨ar, ps, bd⟩ := fn
  rcases h with h | ⟨p, hp, h1, h2⟩
  · simp only at h
    subst h
    rfl
  · simp only at hp
    subst hp
    have hb1 : (paramNameText p.pname == "req") = false := beq_eq_false_iff_ne.mpr h1
    have hb2 : (paramNameText p.pname == "_req") = false := beq_eq_false_iff_ne.mpr h2
    cases ar <;> cases bd <;>
      simp [maybePrependReqVar, hb1, hb2]

/-- Result of the normalizer on a block-bodied handler with the single
    untyped-or-typed parameter `req`: the parameter becomes `ctx`,
    `const req = ctx.req` is prepended, and a `FreshContext` annotation
    is added (registering the name in the core set) exactly when
    explicit typing is in effect — i.e. when the caller passed
    `hasInferredTypes = false` or the parameter carried an annotation. -/
theorem mppr_single_req (ar : Bool) (ty : Option String) (stmts : List Stmt)
    (st : ImportState) (hit : Bool) :
    maybePrependReqVar ⟨ar, [⟨.idn "req", ty⟩], .block stmts⟩ st hit
      = (⟨ar, [⟨.idn "ctx", if hit && ty.isNone then none else some "FreshContext"⟩],
          .block (constStmt "req" "ctx" "req" :: stmts)⟩,
         if hit && ty.isNone then st
         else { st with core := addName "FreshContext" st.core }) := by
  cases ar <;> cases hit <;> cases ty <;> rfl

/-- Same, for an expression body: the parameter edits still happen, but
    no statement is injected (for arrows the normalizer aborts; for the
    vacuous non-arrow case the insertion targets a block that is not
    there). -/
theorem mppr_single_req_expr (ar : Bool) (ty : Option String) (e : Expr)
    (st : ImportState) (hit : Bool) :
    maybePrependReqVar ⟨ar, [⟨.idn "req", ty⟩], .exprBody e⟩ st hit
      = (⟨ar, [⟨.idn "ctx", if hit && ty.isNone then none else some "FreshContext"⟩],
          .exprBody e⟩,
         if hit && ty.isNone then st
         else { st with core := addName "FreshContext" st.core }) := by
  cases ar <;> cases hit <;> cases ty <;> rfl

/-- Result of the normalizer on a handler whose sole parameter is
    `_req`: the parameter is removed and nothing else happens. -/
theorem mppr_underscore (ar : Bool) (ty : Option String) (bd : FnBody)
    (st : ImportState) (hit : Bool) :
    maybePrependReqVar ⟨ar, [⟨.idn "_req", ty⟩], bd⟩ st hit = (⟨ar, [], bd⟩, st) := by
  cases ar <;> cases bd <;> rfl

/-- Result of the normalizer on a two-parameter handler whose second
    parameter is a plain identifier: the first parameter is removed,
    the second is retyped `FreshContext` exactly when it was annotated
    `RouteContext`, and `const <first> = ctx.req` is prepended unless
    the first name is underscore-prefixed (or the body is not a
    block). -/
theorem mppr_two_idn (ar : Bool) (pn : PName) (t1 : Option String) (qs : String)
    (t2 : Option String) (bd : FnBody) (st : ImportState) (hit : Bool) :
    maybePrependReqVar ⟨ar, [⟨pn, t1⟩, ⟨.idn qs, t2⟩], bd⟩ st hit
      = (⟨ar,
          [⟨.idn qs, if t2 = some "RouteContext" then some "FreshContext" else t2⟩],
          if ar && !isBlock bd then bd
          else if startsWithUnderscore (paramNameText pn) then bd
          else prependStmt (constStmt (paramNameText pn) "ctx" "req") bd⟩,
         if t2 = some "RouteContext" then { st with core := addName "FreshContext" st.core }
         else st) := by
  by_cases hT : t2 = some "RouteContext" <;>
    cases hsw : startsWithUnderscore (paramNameText pn) <;>
      cases ar <;> cases bd <;>
        simp [maybePrependReqVar, hT, hsw, isPatName, isBlock, prependStmt]

/-- Shape of the normalizer's result on a two-parameter handler whose
    second parameter is an object binding pattern: the surviving sole
    parameter is still a binding pattern, and the body is either
    untouched or prefixed with `const remoteAddr = info.remoteAddr`. -/
theorem mppr_two_pat_shape (ar : Bool) (pn : PName) (t1 : Option String) (es : List String)
    (t2 : Option String) (bd : FnBody) (st : ImportState) (hit : Bool) :
    (maybePrependReqVar ⟨ar, [⟨pn, t1⟩, ⟨.pat es, t2⟩], bd⟩ st hit).1.isArrow = ar ∧
    (∃ es' t', (maybePrependReqVar ⟨ar, [⟨pn, t1⟩, ⟨.pat es, t2⟩], bd⟩ st hit).1.params
        = [⟨.pat es', t'⟩]) ∧
    ((maybePrependReqVar ⟨ar, [⟨pn, t1⟩, ⟨.pat es, t2⟩], bd⟩ st hit).1.body = bd ∨
      (maybePrependReqVar ⟨ar, [⟨pn, t1⟩, ⟨.pat es, t2⟩], bd⟩ st hit).1.body
        = prependStmt (constStmt "remoteAddr" "info" "remoteAddr") bd) := by
  refine ⟨?_, ?_, ?_⟩ <;>
  · by_cases hT : t2 = some "RouteContext" <;>
      by_cases hne : es = [] <;>
        by_cases hmem : "remoteAddr" ∈ es <;>
          cases hsw : startsWithUnderscore (paramNameText pn) <;>
            cases ar <;> cases bd <;>
              simp [maybePrependReqVar, hT, hne, hmem, hsw, isPatName, isBlock, prependStmt,
                setHeadPat] <;>
              first
              | exact absurd hmem (by simp [hne])
              | exact ⟨_, _, rfl⟩
              | exact Or.inl rfl
              | exact Or.inr rfl

/-- The result of the normalizer, on a good parameter list, always has
    a noop-compatible parameter list (empty, or one parameter not
    named `req`/`_req`), and a body equal to the input body possibly
    prefixed with one walker-stable constant declaration. -/
theorem mppr_shape (ar : Bool) (ps : List Param) (bd : FnBody) (st : ImportState) (hit : Bool)
    (h : goodParams ps = true) :
    (maybePrependReqVar ⟨ar, ps, bd⟩ st hit).1.isArrow = ar ∧
    ((maybePrependReqVar ⟨ar, ps, bd⟩ st hit).1.params = [] ∨
      ∃ p', (maybePrependReqVar ⟨ar, ps, bd⟩ st hit).1.params = [p'] ∧
        paramNameText p'.pname ≠ "req" ∧ paramNameText p'.pname ≠ "_req") ∧
    ((maybePrependReqVar ⟨ar, ps, bd⟩ st hit).1.body = bd ∨
      ∃ nm obj fld, (maybePrependReqVar ⟨ar, ps, bd⟩ st hit).1.body
          = prependStmt (constStmt nm obj fld) bd ∧
        walkStmt (constStmt nm obj fld) = constStmt nm obj fld) := by
  cases ps with
  | nil => exact ⟨rfl, Or.inl rfl, Or.inl rfl⟩
  | cons p rest =>
    cases rest with
    | nil =>
      obtain ⟨pn, ty⟩ := p
      cases pn with
      | idn s =>
        by_cases hr : s = "req"
        · subst hr
          cases bd with
          | block stmts =>
            rw [mppr_single_req]
            exact ⟨rfl, Or.inr ⟨_, rfl, by simp [paramNameText], by simp [paramNameText]⟩,
              Or.inr ⟨"req", "ctx", "req", rfl, walkStmt_const_req "req"⟩⟩
          | exprBody e =>
            rw [mppr_single_req_expr]
            exact ⟨rfl, Or.inr ⟨_, rfl, by simp [paramNameText], by simp [paramNameText]⟩,
              Or.inl rfl⟩
        · by_cases hu : s = "_req"
          · subst hu
            rw [mppr_underscore]
            exact ⟨rfl, Or.inl rfl, Or.inl rfl⟩
          · rw [mppr_noop _ _ _ (Or.inr ⟨⟨.idn s, ty⟩, rfl, hr, hu⟩)]
            exact ⟨rfl, Or.inr ⟨⟨.idn s, ty⟩, rfl, hr, hu⟩, Or.inl rfl⟩
      | pat es =>
        rw [mppr_noop _ _ _ (Or.inr ⟨⟨.pat es, ty⟩, rfl, (patName_ne es).1, (patName_ne es).2⟩)]
        exact ⟨rfl, Or.inr ⟨⟨.pat es, ty⟩, rfl, (patName_ne es).1, (patName_ne es).2⟩,
          Or.inl rfl⟩
    | cons q rest2 =>
      cases rest2 with
      | nil =>
        obtain ⟨pn, t1⟩ := p
        obtain ⟨qn, t2⟩ := q
        cases qn with
        | idn qs =>
          have hq : ¬(qs = "req" ∨ qs = "_req") := by
            simpa [goodParams] using h
          rw [mppr_two_idn]
          refine ⟨rfl, Or.inr ⟨_, rfl, ?_, ?_⟩, ?_⟩
          · exact fun hh => hq (Or.inl hh)
          · exact fun hh => hq (Or.inr hh)
          · by_cases hA : (ar && !isBlock bd) = true
            · rw [if_pos hA]
              exact Or.inl rfl
            · rw [if_neg hA]
              by_cases hB : startsWithUnderscore (paramNameText pn) = true
              · rw [if_pos hB]
                exact Or.inl rfl
              · rw [if_neg hB]
                exact Or.inr ⟨paramNameText pn, "ctx", "req", rfl, walkStmt_const_req _⟩
        | pat es =>
          obtain ⟨h1, ⟨es', t', h2⟩, h3⟩ := mppr_two_pat_shape ar pn t1 es t2 bd st hit
          refine ⟨h1, Or.inr ⟨⟨.pat es', t'⟩, h2, (patName_ne es').1, (patName_ne es').2⟩, ?_⟩
          rcases h3 with h3 | h3
          · exact Or.inl h3
          · exact Or.inr ⟨"remoteAddr", "info", "remoteAddr", h3, walkStmt_const_remote _⟩
      | cons r rest3 =>
        exact absurd h (by simp [goodParams])

/-- One handler-processing step is idempotent on good handlers: the
    second run leaves the function and the import state untouched. -/
theorem processFn_idem (hit : Bool) (fn : FnNode) (st st' : ImportState)
    (h : goodFn fn = true) :
    processFn hit (processFn hit fn st).1 st' = ((processFn hit fn st).1, st') := by
  obtain ⟨ar, ps, bd⟩ := fn
  rw [goodFn, Bool.and_eq_true] at h
  have hps : goodParams ps = true := h.1
  have hbd : goodBody bd = true := h.2
  have hwalk : walkBody (walkBody bd) = walkBody bd := by
    cases bd with
    | block l =>
      show FnBody.block (rewriteCtxMethods (rewriteCtxMethods l)) = .block (rewriteCtxMethods l)
      rw [rewriteCtxMethods_idem l hbd]
    | exprBody e => rfl
  show processFn hit (maybePrependReqVar ⟨ar, ps, walkBody bd⟩ st hit).1 st'
      = ((maybePrependReqVar ⟨ar, ps, walkBody bd⟩ st hit).1, st')
  obtain ⟨h1, h2, h3⟩ := mppr_shape ar ps (walkBody bd) st hit hps
  set fn1 := (maybePrependReqVar ⟨ar, ps, walkBody bd⟩ st hit).1 with hfn1
  have hbody1 : walkBody fn1.body = fn1.body := by
    rcases h3 with h3 | ⟨nm, obj, fld, h3, hstable⟩
    · rw [h3, hwalk]
    · rw [h3]
      cases hb : walkBody bd with
      | block l =>
        show walkBody (.block (constStmt nm obj fld :: l)) = _
        show FnBody.block (walkStmt (constStmt nm obj fld) :: rewriteCtxMethods l)
            = FnBody.block (constStmt nm obj fld :: l)
        rw [hstable]
        have : rewriteCtxMethods l = l := by
          have := hwalk
          rw [hb] at this
          injection this
        rw [this]
      | exprBody e => rfl
  have hfne : (⟨fn1.isArrow, fn1.params, walkBody fn1.body⟩ : FnNode) = fn1 := by
    rw [hbody1]
  show maybePrependReqVar ⟨fn1.isArrow, fn1.params, walkBody fn1.body⟩ st' hit = (fn1, st')
  rw [hfne]
  exact mppr_noop fn1 st' hit h2

/-! ## Idempotence of the route phase -/

theorem processProp_idem (p : PropNode) (st st' : ImportState) (h : goodProp p = true) :
    processProp (processProp p st).1 st' = ((processProp p st).1, st') := by
  cases p with
  | methodP n fn =>
    by_cases hm : isHttpMethod n = true
    · have hg : goodFn fn = true := by
        simpa [goodProp, hm] using h
      simp [processProp, hm, processFn_idem true fn st st' hg]
    · simp [processProp, hm]
  | assignFn n fn =>
    have hg : goodFn fn = true := h
    simp [processProp, processFn_idem true fn st st' hg]
  | assignOther n => rfl
  | otherProp => rfl

theorem processProps_idem (ps : List PropNode) (st st' : ImportState)
    (h : ps.all goodProp = true) :
    processProps (processProps ps st).1 st' = ((processProps ps st).1, st') := by
  induction ps generalizing st st' with
  | nil => rfl
  | cons p rest ih =>
    rw [List.all_cons, Bool.and_eq_true] at h
    have hr := processProp_idem p st st' h.1
    have hrr := ih (processProp p st).2 st' h.2
    simp only [processProps, hr, hrr]

theorem processDecl_idem (d : ExportedDecl) (st st' : ImportState) (h : goodDecl d = true) :
    processDecl (processDecl d st).1 st' = ((processDecl d st).1, st') := by
  obtain ⟨nm, pl⟩ := d
  by_cases hn : nm = "handler"
  · subst hn
    simp only [goodDecl, if_pos rfl] at h
    cases pl with
    | handlerObj props =>
      have hp : props.all goodProp = true := by
        simpa [goodPayloadHandler] using h
      simp [processDecl, processProps_idem props st st' hp]
    | fnDecl fn =>
      have hg : goodFn fn = true := by
        simpa [goodPayloadHandler] using h
      simp [processDecl, processFn_idem false fn st st' hg]
    | varOther => rfl
    | wrapperCall c args => rfl
    | otherPayload => rfl
  · by_cases hd : nm = "default"
    · subst hd
      simp only [goodDecl, if_neg (by decide : ¬("default" : String) = "handler"),
        if_pos rfl] at h
      cases pl with
      | wrapperCall c args =>
        by_cases hw : isDefineWrapper c = true
        · cases args with
          | nil => simp [processDecl, hw]
          | cons a rest =>
            cases a with
            | fnArg fn =>
              have hg : goodFn fn = true := by
                simpa [goodPayloadDefault, hw] using h
              simp [processDecl, hw, processFn_idem false fn st st' hg]
            | otherArg e => simp [processDecl, hw]
        · simp [processDecl, hw]
      | fnDecl fn =>
        have hg : goodFn fn = true := by
          simpa [goodPayloadDefault] using h
        simp [processDecl, processFn_idem false fn st st' hg]
      | handlerObj props => rfl
      | varOther => rfl
      | otherPayload => rfl
    · simp [processDecl, hn, hd]

theorem runRoutePhase_idem (ds : List ExportedDecl) (st st' : ImportState)
    (h : ds.all goodDecl = true) :
    runRoutePhase (runRoutePhase ds st).1 st' = ((runRoutePhase ds st).1, st') := by
  induction ds generalizing st st' with
  | nil => rfl
  | cons d rest ih =>
    rw [List.all_cons, Bool.and_eq_true] at h
    have hr := processDecl_idem d st st' h.1
    have hrr := ih (processDecl d st).2 st' h.2
    simp only [runRoutePhase, hr, hrr]

/-! ## Idempotence of the import phase -/

/-- Membership in a conditional singleton. -/
theorem mem_ite_singleton {α : Type} {c : Prop} [Decidable c] {d x : α}
    (h : d ∈ (if c then [x] else [])) : d = x ∧ c := by
  split at h
  · rename_i hc
    exact ⟨List.mem_singleton.mp h, hc⟩
  · simp at h

/-- Every declaration produced by one run of the import phase satisfies
    the `importStable` invariant. -/
theorem importLoop_stable (imps : List ImportDecl) (st : ImportState) :
    ∀ d ∈ (importLoop st imps).decls, importStable d = true := by
  induction imps generalizing st with
  | nil => intro d hd; simp [importLoop] at hd
  | cons d0 rest ih =>
    intro d hd
    by_cases hp : d0.specifier = "preact"
    · rw [importLoop, if_pos hp] at hd
      rcases List.mem_append.mp hd with hmem | hmem
      · obtain ⟨hmem, hkeep⟩ := mem_ite_singleton hmem
        subst hmem
        have hall : (List.filter (fun n => !(n == "h" || n == "Fragment")) d0.named).all
            (fun n => !(n == "h" || n == "Fragment")) = true :=
          List.all_eq_true.mpr fun n hn => (List.mem_filter.mp hn).2
        rw [hp] at hkeep
        simp only [importStable]
        rw [hp]
        rw [if_pos rfl]
        refine (Bool.and_eq_true _ _).mpr ⟨rfl, ?_⟩
        exact (Bool.and_eq_true _ _).mpr ⟨hall, hkeep⟩
      · exact ih st d hmem
    · by_cases hs : d0.specifier = "$fresh/server.ts"
      · rw [importLoop, if_neg hp, if_pos hs] at hd
        rcases List.mem_append.mp hd with hmem | hmem
        · obtain ⟨hmem, -⟩ := mem_ite_singleton hmem
          subst hmem
          simp [importStable]
        · exact ih _ d hmem
      · by_cases hr : d0.specifier = "$fresh/runtime.ts"
        · rw [importLoop, if_neg hp, if_neg hs, if_pos hr] at hd
          rcases List.mem_append.mp hd with hmem | hmem
          · obtain ⟨hmem, -⟩ := mem_ite_singleton hmem
            subst hmem
            simp [importStable]
          · exact ih _ d hmem
        · rw [importLoop, if_neg hp, if_neg hs, if_neg hr] at hd
          rcases List.mem_cons.mp hd with hmem | hmem
          · subst hmem
            simp [importStable, hp, hs, hr]
          · exact ih st d hmem

/-- The import loop with empty accumulated sets is the identity on
    stable declarations. -/
theorem importLoop_noop (imps : List ImportDecl)
    (h : ∀ d ∈ imps, importStable d = true) :
    importLoop ⟨[], [], []⟩ imps = ⟨imps, false, false, false, [], ⟨[], [], []⟩⟩ := by
  induction imps with
  | nil => rfl
  | cons d0 rest ih =>
    have hd0 := h d0 (List.mem_cons_self d0 rest)
    have hrest : ∀ d ∈ rest, importStable d = true :=
      fun d hd => h d (List.mem_cons_of_mem d0 hd)
    simp only [importStable, Bool.and_eq_true, Bool.not_eq_true', beq_eq_false_iff_ne] at hd0
    obtain ⟨⟨hns, hnr⟩, hrest0⟩ := hd0
    by_cases hp : d0.specifier = "preact"
    · rw [if_pos hp] at hrest0
      rw [Bool.and_eq_true] at hrest0
      obtain ⟨hall, hkeep⟩ := hrest0
      have hfilter0 : (d0.named.filter fun n => n == "h" || n == "Fragment") = [] := by
        rw [List.filter_eq_nil_iff]
        intro n hn
        have := List.all_eq_true.mp hall n hn
        simpa using this
      have hfilter1 : (d0.named.filter fun n => !(n == "h" || n == "Fragment")) = d0.named := by
        rw [List.filter_eq_self]
        intro n hn
        exact List.all_eq_true.mp hall n hn
      rw [importLoop, if_pos hp, ih hrest]
      simp only [hfilter0, hfilter1]
      have hd1 : ({ d0 with named := d0.named } : ImportDecl) = d0 := rfl
      rw [hd1]
      rw [if_pos (show keepImport d0 = true from hkeep)]
      rfl
    · rw [importLoop, if_neg hp, if_neg hns, if_neg hnr, ih hrest]

/-- The whole import phase with empty sets is the identity on stable
    declarations: nothing is rewritten and nothing is synthesized. -/
theorem runImportPhase_noop (imps : List ImportDecl)
    (h : ∀ d ∈ imps, importStable d = true) :
    runImportPhase imps ⟨[], [], []⟩ = ⟨imps, false, false, false, [], ⟨[], [], []⟩⟩ := by
  rw [runImportPhase]
  rw [importLoop_noop imps h]
  simp [synthImports]

/-- The synthesized declarations also satisfy the invariant, so the
    whole import phase produces only stable declarations. -/
theorem runImportPhase_stable (imps : List ImportDecl) (st : ImportState) :
    ∀ d ∈ (runImportPhase imps st).decls, importStable d = true := by
  intro d hd
  rw [runImportPhase] at hd
  rcases List.mem_append.mp hd with hmem | hmem
  · exact importLoop_stable imps st d hmem
  · rw [synthImports] at hmem
    rcases List.mem_append.mp hmem with hm | hm
    · rcases List.mem_append.mp hm with hm2 | hm2
      · obtain ⟨he, -⟩ := mem_ite_singleton hm2
        subst he
        rfl
      · obtain ⟨he, -⟩ := mem_ite_singleton hm2
        subst he
        rfl
    · obtain ⟨he, -⟩ := mem_ite_singleton hm
      subst he
      rfl

set_option maxHeartbeats 1600000 in
/-- One-step unfolding of `updateFile`. -/
theorem updateFile_unfold (f : SourceFile) :
    updateFile f =
      (⟨f.path, stripDirectives f.headText,
        (runImportPhase f.imports
          (if routeOk f.path then runRoutePhase f.decls ⟨[], [], []⟩
           else (f.decls, ⟨[], [], []⟩)).2).decls,
        (if routeOk f.path then runRoutePhase f.decls ⟨[], [], []⟩
         else (f.decls, ⟨[], [], []⟩)).1⟩,
       (!(renderFile ⟨f.path, stripDirectives f.headText,
          (runImportPhase f.imports
            (if routeOk f.path then runRoutePhase f.decls ⟨[], [], []⟩
             else (f.decls, ⟨[], [], []⟩)).2).decls,
          (if routeOk f.path then runRoutePhase f.decls ⟨[], [], []⟩
           else (f.decls, ⟨[], [], []⟩)).1⟩ == renderFile f))
         || (runImportPhase f.imports
            (if routeOk f.path then runRoutePhase f.decls ⟨[], [], []⟩
             else (f.decls, ⟨[], [], []⟩)).2).modified) := rfl

set_option maxHeartbeats 1600000 in
/-- The core of the amended C1: on a migratable file a second run of
    `updateFile` returns the same file and reports it unmodified. -/
theorem updateFile_second_run (f : SourceFile) (h : migratable f = true) :
    updateFile (updateFile f).1 = ((updateFile f).1, false) := by
  rw [migratable, Bool.and_eq_true] at h
  obtain ⟨hstrip0, hdecls0⟩ := h
  have hstrip : stripDirectives (stripDirectives f.headText) = stripDirectives f.headText :=
    eq_of_beq hstrip0
  set g := (updateFile f).1 with hgdef
  have hhead : g.headText = stripDirectives f.headText := rfl
  have hdec : g.decls = (if routeOk f.path then runRoutePhase f.decls ⟨[], [], []⟩
      else (f.decls, (⟨[], [], []⟩ : ImportState))).1 := rfl
  have himp0 : g.imports = (runImportPhase f.imports
      (if routeOk f.path then runRoutePhase f.decls ⟨[], [], []⟩
       else (f.decls, (⟨[], [], []⟩ : ImportState))).2).decls := rfl
  have hstrip2 : stripDirectives g.headText = g.headText := by
    rw [hhead]
    exact hstrip
  have hroute2 : (if routeOk g.path then runRoutePhase g.decls ⟨[], [], []⟩
      else (g.decls, (⟨[], [], []⟩ : ImportState))) = (g.decls, ⟨[], [], []⟩) := by
    by_cases hr : routeOk g.path = true
    · rw [if_pos hr]
      have hrf : routeOk f.path = true := hr
      have hall : f.decls.all goodDecl = true := by
        rw [hrf] at hdecls0
        simpa using hdecls0
      rw [hdec, if_pos hrf]
      exact runRoutePhase_idem f.decls ⟨[], [], []⟩ ⟨[], [], []⟩ hall
    · rw [if_neg hr]
  have himp2 : runImportPhase g.imports ⟨[], [], []⟩
      = ⟨g.imports, false, false, false, [], ⟨[], [], []⟩⟩ := by
    refine runImportPhase_noop g.imports ?_
    rw [himp0]
    exact runImportPhase_stable f.imports _
  rw [updateFile_unfold g]
  simp only [hstrip2, hroute2, himp2]
  show (g, (!(renderFile g == renderFile g)) || false) = (g, false)
  simp

/-! ## Import exclusivity (C2) -/

theorem renameSpec_eq_fresh {s : String} (h : renameSpec s = "fresh") :
    s = "$fresh/server.ts" ∨ s = "fresh" := by
  rw [renameSpec] at h
  split at h
  · rename_i hc
    exact Or.inl hc
  · split at h
    · exact absurd h (by decide)
    · exact Or.inr h

theorem renameSpec_eq_runtime {s : String} (h : renameSpec s = "fresh/runtime") :
    s = "$fresh/runtime.ts" ∨ s = "fresh/runtime" := by
  rw [renameSpec] at h
  split at h
  · exact absurd h (by decide)
  · split at h
    · rename_i hc
      exact Or.inl hc
    · exact Or.inr h

theorem renameSpec_eq_compat {s : String} (h : renameSpec s = "fresh/compat") :
    s = "fresh/compat" := by
  rw [renameSpec] at h
  split at h
  · exact absurd h (by decide)
  · split at h
    · exact absurd h (by decide)
    · exact h

theorem renameSpec_injOn {a b : String}
    (ha1 : a ≠ "fresh") (ha2 : a ≠ "fresh/runtime")
    (hb1 : b ≠ "fresh") (hb2 : b ≠ "fresh/runtime")
    (h : renameSpec a = renameSpec b) : a = b := by
  by_cases has : a = "$fresh/server.ts"
  · rw [renameSpec, if_pos has] at h
    rcases renameSpec_eq_fresh h.symm with hb | hb
    · rw [has, hb]
    · exact absurd hb hb1
  · by_cases har : a = "$fresh/runtime.ts"
    · rw [renameSpec, if_neg has, if_pos har] at h
      rcases renameSpec_eq_runtime h.symm with hb | hb
      · rw [har, hb]
      · exact absurd hb hb2
    · rw [renameSpec, if_neg has, if_neg har] at h
      by_cases hbs : b = "$fresh/server.ts"
      · rw [renameSpec, if_pos hbs] at h
        exact absurd h ha1
      · by_cases hbr : b = "$fresh/runtime.ts"
        · rw [renameSpec, if_neg hbs, if_pos hbr] at h
          exact absurd h ha2
        · rw [renameSpec, if_neg hbs, if_neg hbr] at h
          exact h

/-- Mapping specifiers over a conditionally kept declaration followed
    by a processed tail. -/
theorem map_keep_append_sublist {D : ImportDecl} {r : List ImportDecl} {tgt : List String}
    (c : Prop) [Decidable c]
    (h : (r.map (fun d => d.specifier)).Sublist tgt) :
    (((if c then [D] else []) ++ r).map (fun d => d.specifier)).Sublist
      (D.specifier :: tgt) := by
  split
  · simp only [List.map_append, List.map_cons, List.map_nil, List.singleton_append]
    exact List.Sublist.cons₂ _ h
  · simp only [List.map_append, List.map_nil, List.nil_append]
    exact List.Sublist.cons _ h

/-- The specifiers surviving the loop form a sublist of the renamed
    input specifiers. -/
theorem importLoop_sublist (l : List ImportDecl) (st : ImportState) :
    ((importLoop st l).decls.map (fun d => d.specifier)).Sublist
      (l.map (fun d => renameSpec d.specifier)) := by
  induction l generalizing st with
  | nil => simp [importLoop]
  | cons d0 rest ih =>
    by_cases hp : d0.specifier = "preact"
    · rw [importLoop, if_pos hp]
      have hren : renameSpec d0.specifier = d0.specifier := by
        rw [renameSpec, if_neg (by rw [hp]; decide), if_neg (by rw [hp]; decide)]
      rw [List.map_cons, hren]
      exact map_keep_append_sublist _ (ih st)
    · by_cases hs : d0.specifier = "$fresh/server.ts"
      · rw [importLoop, if_neg hp, if_pos hs]
        have hren : renameSpec d0.specifier = "fresh" := by
          rw [renameSpec, if_pos hs]
        rw [List.map_cons, hren]
        exact map_keep_append_sublist _ (ih _)
      · by_cases hr : d0.specifier = "$fresh/runtime.ts"
        · rw [importLoop, if_neg hp, if_neg hs, if_pos hr]
          have hren : renameSpec d0.specifier = "fresh/runtime" := by
            rw [renameSpec, if_neg hs, if_pos hr]
          rw [List.map_cons, hren]
          exact map_keep_append_sublist _ (ih _)
        · rw [importLoop, if_neg hp, if_neg hs, if_neg hr]
          have hren : renameSpec d0.specifier = d0.specifier := by
            rw [renameSpec, if_neg hs, if_neg hr]
          rw [List.map_cons, List.map_cons, hren]
          exact List.Sublist.cons₂ _ (ih st)

theorem importLoop_hasCore (l : List ImportDecl) (st : ImportState) :
    (importLoop st l).hasCoreImport = l.any (fun d => d.specifier == "$fresh/server.ts") := by
  induction l generalizing st with
  | nil => rfl
  | cons d0 rest ih =>
    by_cases hp : d0.specifier = "preact"
    · rw [importLoop, if_pos hp, List.any_cons]
      have : (d0.specifier == "$fresh/server.ts") = false := by
        rw [hp]
        decide
      rw [this, Bool.false_or]
      exact ih st
    · by_cases hs : d0.specifier = "$fresh/server.ts"
      · rw [importLoop, if_neg hp, if_pos hs, List.any_cons]
        have : (d0.specifier == "$fresh/server.ts") = true := beq_iff_eq.mpr hs
        rw [this, Bool.true_or]
      · by_cases hr : d0.specifier = "$fresh/runtime.ts"
        · rw [importLoop, if_neg hp, if_neg hs, if_pos hr, List.any_cons]
          have : (d0.specifier == "$fresh/server.ts") = false := beq_eq_false_iff_ne.mpr hs
          rw [this, Bool.false_or]
          exact ih _
        · rw [importLoop, if_neg hp, if_neg hs, if_neg hr, List.any_cons]
          have : (d0.specifier == "$fresh/server.ts") = false := beq_eq_false_iff_ne.mpr hs
          rw [this, Bool.false_or]
          exact ih st

theorem importLoop_hasRuntime (l : List ImportDecl) (st : ImportState) :
    (importLoop st l).hasRuntimeImport
      = l.any (fun d => d.specifier == "$fresh/runtime.ts") := by
  induction l generalizing st with
  | nil => rfl
  | cons d0 rest ih =>
    by_cases hp : d0.specifier = "preact"
    · rw [importLoop, if_pos hp, List.any_cons]
      have : (d0.specifier == "$fresh/runtime.ts") = false := by
        rw [hp]
        decide
      rw [this, Bool.false_or]
      exact ih st
    · by_cases hs : d0.specifier = "$fresh/server.ts"
      · rw [importLoop, if_neg hp, if_pos hs, List.any_cons]
        have : (d0.specifier == "$fresh/runtime.ts") = false := by
          rw [hs]
          decide
        rw [this, Bool.false_or]
        exact ih _
      · by_cases hr : d0.specifier = "$fresh/runtime.ts"
        · rw [importLoop, if_neg hp, if_neg hs, if_pos hr, List.any_cons]
          have : (d0.specifier == "$fresh/runtime.ts") = true := beq_iff_eq.mpr hr
          rw [this, Bool.true_or]
        · rw [importLoop, if_neg hp, if_neg hs, if_neg hr, List.any_cons]
          have : (d0.specifier == "$fresh/runtime.ts") = false := beq_eq_false_iff_ne.mpr hr
          rw [this, Bool.false_or]
          exact ih st

theorem synth_nodup (r : ImportLoopOut) :
    ((synthImports r).map (fun d => d.specifier)).Nodup := by
  rw [synthImports]
  by_cases c1 : (!r.hasCoreImport && !r.st.core.isEmpty) = true <;>
    by_cases c2 : (!r.hasRuntimeImport && !r.st.runtime.isEmpty) = true <;>
      by_cases c3 : (!r.st.compat.isEmpty) = true <;>
        simp [c1, c2, c3]

/-- The import phase never leaves two declarations with the same module
    specifier, provided the input declarations have pairwise distinct
    specifiers none of which is already one of the rewrite targets
    `fresh`, `fresh/runtime`, `fresh/compat`. -/
theorem runImportPhase_nodup (imps : List ImportDecl) (st : ImportState)
    (h1 : (imps.map (fun d => d.specifier)).Nodup)
    (h2 : ∀ d ∈ imps, d.specifier ≠ "fresh" ∧ d.specifier ≠ "fresh/runtime" ∧
      d.specifier ≠ "fresh/compat") :
    ((runImportPhase imps st).decls.map (fun d => d.specifier)).Nodup := by
  show (((importLoop st imps).decls ++ synthImports (importLoop st imps)).map
    (fun d => d.specifier)).Nodup
  rw [List.map_append, List.nodup_append]
  refine ⟨?_, synth_nodup _, ?_⟩
  · have hrenam : (imps.map (fun d => renameSpec d.specifier)).Nodup := by
      have hmm : imps.map (fun d => renameSpec d.specifier)
          = (imps.map (fun d => d.specifier)).map renameSpec := by
        rw [List.map_map]
        rfl
      rw [hmm]
      refine List.Nodup.map_on ?_ h1
      intro x hx y hy hxy
      obtain ⟨dx, hdx, hdxe⟩ := List.mem_map.mp hx
      obtain ⟨dy, hdy, hdye⟩ := List.mem_map.mp hy
      subst hdxe
      subst hdye
      exact renameSpec_injOn (h2 dx hdx).1 (h2 dx hdx).2.1 (h2 dy hdy).1 (h2 dy hdy).2.1 hxy
    exact List.Nodup.sublist (importLoop_sublist imps st) hrenam
  · intro s hs hsyn
    have hs2 := (importLoop_sublist imps st).subset hs
    obtain ⟨d, hd, hde⟩ := List.mem_map.mp hs2
    obtain ⟨D, hD, hDe⟩ := List.mem_map.mp hsyn
    rw [synthImports] at hD
    rcases List.mem_append.mp hD with hm | hm
    · rcases List.mem_append.mp hm with hm2 | hm2
      · obtain ⟨he, hc⟩ := mem_ite_singleton hm2
        subst he
        have hsf : s = "fresh" := hDe.symm
        have hcore : (importLoop st imps).hasCoreImport = false := by
          rw [Bool.and_eq_true, Bool.not_eq_true'] at hc
          exact hc.1
        rw [importLoop_hasCore] at hcore
        rcases renameSpec_eq_fresh (hde.trans hsf) with hds | hds
        · have := List.any_eq_false.mp hcore d hd
          rw [hds] at this
          simp at this
        · exact absurd hds (h2 d hd).1
      · obtain ⟨he, hc⟩ := mem_ite_singleton hm2
        subst he
        have hsf : s = "fresh/runtime" := hDe.symm
        have hrt : (importLoop st imps).hasRuntimeImport = false := by
          rw [Bool.and_eq_true, Bool.not_eq_true'] at hc
          exact hc.1
        rw [importLoop_hasRuntime] at hrt
        rcases renameSpec_eq_runtime (hde.trans hsf) with hds | hds
        · have := List.any_eq_false.mp hrt d hd
          rw [hds] at this
          simp at this
        · exact absurd hds (h2 d hd).2.1
    · obtain ⟨he, -⟩ := mem_ite_singleton hm
      subst he
      have hsf : s = "fresh/compat" := hDe.symm
      exact absurd (renameSpec_eq_compat (hde.trans hsf)) (h2 d hd).2.2

/-! ## Lemmas about the manifest edit script (C8) -/

theorem lookup_setKey_self (k v : String) (l : List (String × String)) :
    (setKey k v l).lookup k = some v := by
  induction l with
  | nil => simp [setKey, List.lookup]
  | cons kv t ih =>
    obtain ⟨a, b⟩ := kv
    by_cases hak : a = k
    · rw [setKey, if_pos hak]
      simp only [List.lookup]
      rw [show (k == a) = true from beq_iff_eq.mpr hak.symm]
    · rw [setKey, if_neg hak]
      simp only [List.lookup]
      rw [show (k == a) = false from beq_eq_false_iff_ne.mpr fun hh => hak hh.symm]
      exact ih

theorem lookup_setKey_ne (a k v : String) (l : List (String × String)) (hak : a ≠ k) :
    (setKey k v l).lookup a = l.lookup a := by
  induction l with
  | nil =>
    simp [setKey, List.lookup]
    rw [show (a == k) = false from beq_eq_false_iff_ne.mpr hak]
  | cons kv t ih =>
    obtain ⟨x, y⟩ := kv
    by_cases hxk : x = k
    · rw [setKey, if_pos hxk]
      simp only [List.lookup]
      rw [show (a == x) = false from beq_eq_false_iff_ne.mpr fun hh => hak (hh.trans hxk)]
    · rw [setKey, if_neg hxk]
      simp only [List.lookup]
      cases hax : (a == x) with
      | true => rfl
      | false => exact ih

theorem setKey_of_lookup (k v : String) (l : List (String × String))
    (h : l.lookup k = some v) : setKey k v l = l := by
  induction l with
  | nil => simp [List.lookup] at h
  | cons kv t ih =>
    obtain ⟨a, b⟩ := kv
    simp only [List.lookup] at h
    by_cases hak : a = k
    · rw [setKey, if_pos hak]
      rw [show (k == a) = true from beq_iff_eq.mpr hak.symm] at h
      injection h with h
      rw [h]
    · rw [setKey, if_neg hak]
      rw [show (k == a) = false from beq_eq_false_iff_ne.mpr fun hh => hak hh.symm] at h
      rw [ih h]

theorem lookup_delKey_self (k : String) (l : List (String × String)) :
    (delKey k l).lookup k = none := by
  induction l with
  | nil => rfl
  | cons kv t ih =>
    obtain ⟨a, b⟩ := kv
    by_cases hak : a = k
    · rw [delKey, List.filter_cons_of_neg (by simp [hak])]
      exact ih
    · rw [delKey, List.filter_cons_of_pos (by simpa using hak)]
      simp only [List.lookup]
      rw [show (k == a) = false from beq_eq_false_iff_ne.mpr fun hh => hak hh.symm]
      exact ih

theorem lookup_delKey_ne (a k : String) (l : List (String × String)) (hak : a ≠ k) :
    (delKey k l).lookup a = l.lookup a := by
  induction l with
  | nil => rfl
  | cons kv t ih =>
    obtain ⟨x, y⟩ := kv
    by_cases hxk : x = k
    · rw [delKey, List.filter_cons_of_neg (by simp [hxk])]
      rw [delKey] at ih
      rw [ih]
      simp only [List.lookup]
      rw [show (a == x) = false from beq_eq_false_iff_ne.mpr fun hh => hak (hh.trans hxk)]
    · rw [delKey, List.filter_cons_of_pos (by simpa using hxk)]
      simp only [List.lookup]
      cases hax : (a == x) with
      | true => rfl
      | false =>
        rw [delKey] at ih
        exact ih

theorem delKey_of_lookup_none (k : String) (l : List (String × String))
    (h : l.lookup k = none) : delKey k l = l := by
  induction l with
  | nil => rfl
  | cons kv t ih =>
    obtain ⟨a, b⟩ := kv
    simp only [List.lookup] at h
    cases hka : (k == a) with
    | true =>
      rw [hka] at h
      cases h
    | false =>
      rw [hka] at h
      rw [delKey, List.filter_cons_of_pos
        (by simpa using fun hh => by rw [hh] at hka; simp at hka)]
      rw [delKey] at ih
      rw [ih h]

theorem editTasks_eq (t : List (String × String)) :
    editTasks t = etCheck (etUpdate (etCli (etManifest t))) := rfl

theorem etManifest_self (t : List (String × String)) :
    ¬((etManifest t).lookup "manifest" = some manifestLegacy) := by
  rw [etManifest]
  split
  · rw [lookup_delKey_self]
    simp
  · rename_i h
    exact h

theorem etCli_self (t : List (String × String)) :
    ¬((etCli t).lookup "cli" = some cliLegacy1 ∨ (etCli t).lookup "cli" = some cliLegacy2) := by
  rw [etCli]
  split
  · rw [lookup_delKey_self]
    simp
  · rename_i h
    exact h

theorem etUpdate_self (t : List (String × String)) :
    ¬((etUpdate t).lookup "update" = some updateLegacy) := by
  rw [etUpdate]
  split
  · rw [lookup_setKey_self]
    intro hh
    injection hh with hh
    exact absurd hh (by decide)
  · rename_i h
    exact h

theorem etCheck_self (t : List (String × String)) :
    ¬((etCheck t).lookup "check" = some checkLegacy) := by
  rw [etCheck]
  split
  · rw [lookup_setKey_self]
    intro hh
    injection hh with hh
    exact absurd hh (by decide)
  · rename_i h
    exact h

theorem etManifest_pres (t : List (String × String)) (k : String) (hk : k ≠ "manifest") :
    (etManifest t).lookup k = t.lookup k := by
  rw [etManifest]
  split
  · exact lookup_delKey_ne k "manifest" t hk
  · rfl

theorem etCli_pres (t : List (String × String)) (k : String) (hk : k ≠ "cli") :
    (etCli t).lookup k = t.lookup k := by
  rw [etCli]
  split
  · exact lookup_delKey_ne k "cli" t hk
  · rfl

theorem etUpdate_pres (t : List (String × String)) (k : String) (hk : k ≠ "update") :
    (etUpdate t).lookup k = t.lookup k := by
  rw [etUpdate]
  split
  · exact lookup_setKey_ne k "update" updateReplacement t hk
  · rfl

theorem etCheck_pres (t : List (String × String)) (k : String) (hk : k ≠ "check") :
    (etCheck t).lookup k = t.lookup k := by
  rw [etCheck]
  split
  · exact lookup_setKey_ne k "check" checkReplacement t hk
  · rfl

/-- The task edit script reaches a fixed point after one application. -/
theorem editTasks_idem (t : List (String × String)) :
    editTasks (editTasks t) = editTasks t := by
  rw [editTasks_eq (editTasks t)]
  set u := editTasks t with hu
  have hman : ¬(u.lookup "manifest" = some manifestLegacy) := by
    rw [hu, editTasks_eq t, etCheck_pres _ _ (by decide), etUpdate_pres _ _ (by decide),
      etCli_pres _ _ (by decide)]
    exact etManifest_self t
  have hcli : ¬(u.lookup "cli" = some cliLegacy1 ∨ u.lookup "cli" = some cliLegacy2) := by
    rw [hu, editTasks_eq t, etCheck_pres _ _ (by decide), etUpdate_pres _ _ (by decide)]
    exact etCli_self (etManifest t)
  have hupd : ¬(u.lookup "update" = some updateLegacy) := by
    rw [hu, editTasks_eq t, etCheck_pres _ _ (by decide)]
    exact etUpdate_self (etCli (etManifest t))
  have hchk : ¬(u.lookup "check" = some checkLegacy) := by
    rw [hu, editTasks_eq t]
    exact etCheck_self (etUpdate (etCli (etManifest t)))
  rw [show etManifest u = u from by rw [etManifest, if_neg hman]]
  rw [show etCli u = u from by rw [etCli, if_neg hcli]]
  rw [show etUpdate u = u from by rw [etUpdate, if_neg hupd]]
  rw [etCheck, if_neg hchk]

/-- The imports-map edit script reaches a fixed point after one application. -/
theorem editImportsMap_idem (e : List (String × String)) :
    editImportsMap (editImportsMap e) = editImportsMap e := by
  set m := editImportsMap e with hm
  have hf : m.lookup "fresh" = some freshPin := by
    rw [hm, editImportsMap, lookup_delKey_ne _ _ _ (by decide),
      lookup_delKey_ne _ _ _ (by decide), lookup_delKey_ne _ _ _ (by decide),
      lookup_setKey_ne _ _ _ _ (by decide), lookup_setKey_ne _ _ _ _ (by decide),
      lookup_setKey_self]
  have hp : m.lookup "preact" = some preactPin := by
    rw [hm, editImportsMap, lookup_delKey_ne _ _ _ (by decide),
      lookup_delKey_ne _ _ _ (by decide), lookup_delKey_ne _ _ _ (by decide),
      lookup_setKey_ne _ _ _ _ (by decide), lookup_setKey_self]
  have hsig : m.lookup "@preact/signals" = some signalsPin := by
    rw [hm, editImportsMap, lookup_delKey_ne _ _ _ (by decide),
      lookup_delKey_ne _ _ _ (by decide), lookup_delKey_ne _ _ _ (by decide),
      lookup_setKey_self]
  have hd : m.lookup "$fresh/" = none := by
    rw [hm, editImportsMap, lookup_delKey_ne _ _ _ (by decide),
      lookup_delKey_ne _ _ _ (by decide), lookup_delKey_self]
  have hsc : m.lookup "@preact/signals-core" = none := by
    rw [hm, editImportsMap, lookup_delKey_ne _ _ _ (by decide), lookup_delKey_self]
  have hrts : m.lookup "preact-render-to-string" = none := by
    rw [hm, editImportsMap, lookup_delKey_self]
  rw [editImportsMap, setKey_of_lookup _ _ _ hf, setKey_of_lookup _ _ _ hp,
    setKey_of_lookup _ _ _ hsig, delKey_of_lookup_none _ _ hd,
    delKey_of_lookup_none _ _ hsc, delKey_of_lookup_none _ _ hrts]

/-- The `deno.json` edit callback is idempotent: a document it produced
    is returned unchanged (and without throwing) when edited again. -/
theorem editConfig_idem (c j : DenoJson) (h : editConfig c = some j) :
    editConfig j = some j := by
  have htasks : ∀ t : Option (List (String × String)),
      (t.map editTasks).map editTasks = t.map editTasks := by
    intro t
    cases t with
    | none => rfl
    | some v =>
      show some (editTasks (editTasks v)) = some (editTasks v)
      rw [editTasks_idem]
  rw [editConfig] at h
  cases hci : c.imports with
  | none =>
    rw [hci] at h
    simp only [Option.some.injEq] at h
    rw [← h, editConfig]
    simp only [Option.some.injEq]
    rw [editImportsMap_idem, htasks]
  | some v =>
    cases v with
    | nullV =>
      rw [hci] at h
      simp at h
    | obj entries =>
      rw [hci] at h
      simp only [Option.some.injEq] at h
      rw [← h, editConfig]
      simp only [Option.some.injEq]
      rw [editImportsMap_idem, htasks]

/-- Trimming a serialized document followed by a newline gives back the
    serialization: the text starts with `\x7b` and ends with `\x7d`,
    neither of which is JS whitespace. -/
theorem jsTrim_serialize (c : DenoJson) :
    jsTrim (serializeDenoJson c ++ ['\n']) = serializeDenoJson c := by
  show jsTrim (('\x7b' :: (serializeMid c ++ ['\x7d'])) ++ ['\n']) =
    '\x7b' :: (serializeMid c ++ ['\x7d'])
  set m := serializeMid c with hm
  rw [jsTrim, List.cons_append, List.dropWhile_cons, if_neg (by decide)]
  rw [show ('\x7b' :: ((m ++ ['\x7d']) ++ ['\n'])).reverse =
    '\n' :: '\x7d' :: (m.reverse ++ ['\x7b']) from by simp]
  rw [List.dropWhile_cons, if_pos (by decide), List.dropWhile_cons, if_neg (by decide)]
  rw [show ('\x7d' :: (m.reverse ++ ['\x7b'])).reverse =
    '\x7b' :: (m ++ ['\x7d']) from by simp]

/-- Running the manifest update a second time on its own output never
    writes again: if the first run rewrote the file, the second run sees
    content whose trim equals the fresh serialization; if it left the
    file alone, the serialization already matched the trimmed text. -/
theorem updateDenoJsonStep_second (c0 : List Char) (d0 : DenoJson) (u : Bool)
    (d1 : DenoJson) (c1 : List Char)
    (h : updateDenoJsonStep c0 d0 = some (u, d1, c1)) :
    updateDenoJsonStep c1 d1 = some (false, d1, c1) := by
  rw [updateDenoJsonStep] at h
  cases he : editConfig d0 with
  | none =>
    rw [he] at h
    exact absurd h (by simp)
  | some j2 =>
    rw [he] at h
    simp only at h
    have hidem := editConfig_idem d0 j2 he
    rw [updateDenoJsonStep]
    split at h
    · rename_i hne
      simp only [Option.some.injEq, Prod.mk.injEq] at h
      obtain ⟨-, hd, hc⟩ := h
      rw [← hd, hidem]
      simp only
      rw [← hc, jsTrim_serialize, if_neg (by simp)]
    · rename_i hne
      simp only [Option.some.injEq, Prod.mk.injEq] at h
      obtain ⟨-, hd, hc⟩ := h
      rw [← hd, hidem]
      simp only
      rw [← hc, if_neg hne]

/-- The runtime set is only ever consumed by the `$fresh/runtime.ts`
    branch of the import loop: without such a declaration it passes
    through unchanged. -/
theorem importLoop_st_runtime : ∀ (l : List ImportDecl) (st : ImportState),
    (∀ d ∈ l, d.specifier ≠ "$fresh/runtime.ts") →
    (importLoop st l).st.runtime = st.runtime
  | [], _, _ => rfl
  | d0 :: rest, st, h => by
    have hd0 : d0.specifier ≠ "$fresh/runtime.ts" := h d0 (List.mem_cons_self d0 rest)
    have hr : ∀ d ∈ rest, d.specifier ≠ "$fresh/runtime.ts" :=
      fun d hd => h d (List.mem_cons_of_mem d0 hd)
    by_cases hp : d0.specifier = "preact"
    · rw [importLoop, if_pos hp]
      exact importLoop_st_runtime rest st hr
    · by_cases hs : d0.specifier = "$fresh/server.ts"
      · rw [importLoop, if_neg hp, if_pos hs]
        exact importLoop_st_runtime rest _ hr
      · rw [importLoop, if_neg hp, if_neg hs, if_neg hd0]
        exact importLoop_st_runtime rest st hr

/-! ## The claim theorems -/

/-- Claim C1, counterexample: the pass is not idempotent on every file.
    On `cascadeFile` — whose comment text contains `/** @jsx h */\n`
    split around a second copy of itself — the first run's
    `replaceAll` splices a fresh directive occurrence, the second run
    strips it too and reports the file modified again. -/
theorem C1_counterexample :
    (updateFile cascadeFile).1.headText = "/** @jsx h */\n".toList ∧
    (updateFile (updateFile cascadeFile).1).1.headText = ([] : List Char) ∧
    (updateFile (updateFile cascadeFile).1).2 = true :=
  ⟨by decide, by decide, by decide⟩

/-- Claim C1, amended: `updateFile` is idempotent — the second run
    returns the same file and reports it unmodified — on `migratable`
    files: those whose directive stripping reaches a fixed point after
    one pass and, when the route phase applies, whose handlers have
    good parameter lists and rewrite-stable bodies. -/
theorem C1_updateFile_idempotent (f : SourceFile) (h : migratable f = true) :
    updateFile (updateFile f).1 = ((updateFile f).1, false) :=
  updateFile_second_run f h

/-- Witness for C1 on a concrete migratable route file. -/
theorem C1_witness :
    migratable witnessRouteFile = true ∧
    updateFile (updateFile witnessRouteFile).1 = ((updateFile witnessRouteFile).1, false) :=
  ⟨by decide, C1_updateFile_idempotent witnessRouteFile (by decide)⟩

/-- Claim C2, counterexample: on a route file that already imports from
    `fresh`, the handler phase puts `FreshContext` into the core set
    and — since no `$fresh/server.ts` import was seen — the synthesis
    step appends a second `fresh` import declaration. -/
theorem C2_counterexample :
    ((updateFile dupImportFile).1.imports.map (fun d => d.specifier))
      = ["fresh", "fresh"] ∧
    ¬(((updateFile dupImportFile).1.imports.map (fun d => d.specifier)).Nodup) :=
  ⟨by decide, by decide⟩

/-- Claim C2, amended: after `updateFile`, no two import declarations
    share a module specifier, provided the input file's specifiers are
    pairwise distinct and none of them is already one of the rewrite
    targets `fresh`, `fresh/runtime`, `fresh/compat`. -/
theorem C2_no_duplicate_specifiers (f : SourceFile)
    (h1 : (f.imports.map (fun d => d.specifier)).Nodup)
    (h2 : ∀ d ∈ f.imports, d.specifier ≠ "fresh" ∧ d.specifier ≠ "fresh/runtime" ∧
      d.specifier ≠ "fresh/compat") :
    (((updateFile f).1.imports).map (fun d => d.specifier)).Nodup := by
  have he : (updateFile f).1.imports
      = (runImportPhase f.imports
          (if routeOk f.path then runRoutePhase f.decls ⟨[], [], []⟩
           else (f.decls, (⟨[], [], []⟩ : ImportState))).2).decls := rfl
  rw [he]
  exact runImportPhase_nodup _ _ h1 h2

/-- Witness for C2 on a concrete route file with two legacy imports. -/
theorem C2_witness :
    (witnessC2File.imports.map (fun d => d.specifier)).Nodup ∧
    (((updateFile witnessC2File).1.imports).map (fun d => d.specifier)).Nodup :=
  ⟨by decide, C2_no_duplicate_specifiers witnessC2File (by decide) (by decide)⟩

/-- Claim C3: the code replaces the *receiver* of `ctx.remoteAddr` with
    `ctx.info.remoteAddr` and leaves the accessed name in place, so the
    rewritten expression reads `ctx.info.remoteAddr.remoteAddr` — not
    the access chain `ctx.info.remoteAddr` the claim states. -/
theorem C3_receiver_rewrite_bug :
    rewriteCtxMemberName (.propAccess (.ident "ctx") "remoteAddr")
      = (.propAccess (.propAccess (.propAccess (.ident "ctx") "info") "remoteAddr")
          "remoteAddr", false) ∧
    textOf (rewriteCtxMemberName (.propAccess (.ident "ctx") "remoteAddr")).1
      = "ctx.info.remoteAddr.remoteAddr".toList ∧
    textOf (rewriteCtxMemberName (.propAccess (.ident "ctx") "remoteAddr")).1
      ≠ "ctx.info.remoteAddr".toList :=
  ⟨rfl, by decide, by decide⟩

/-- Claim C4, counterexample: an HTTP-method property runs with
    inferred typing, so its sole untyped `req` parameter is renamed to
    `ctx` and `const req = ctx.req` is prepended, but *no*
    `FreshContext` type is written and the core set stays empty. -/
theorem C4_counterexample :
    renderProp (processProp (.methodP "GET" ⟨false, [⟨.idn "req", none⟩], .block []⟩)
        ⟨[], [], []⟩).1
      = renderProp (.methodP "GET" ⟨false, [⟨.idn "ctx", none⟩],
          .block [constStmt "req" "ctx" "req"]⟩) ∧
    ¬(jsIncludes (renderProp (processProp (.methodP "GET"
        ⟨false, [⟨.idn "req", none⟩], .block []⟩) ⟨[], [], []⟩).1)
      ("FreshContext".toList) = true) ∧
    (processProp (.methodP "GET" ⟨false, [⟨.idn "req", none⟩], .block []⟩)
        ⟨[], [], []⟩).2.core = ([] : List String) :=
  ⟨by decide, by decide, by decide⟩

/-- Claim C4, amended: on a sole parameter named `req` with block body,
    the normalizer renames it to `ctx` and prepends
    `const req = ctx.req`; the `FreshContext` type annotation and the
    core-set registration happen exactly when inferred typing is *off*
    (explicit-typing call sites, or an annotated parameter). -/
theorem C4_single_req_normalization (ar : Bool) (ty : Option String) (stmts : List Stmt)
    (st : ImportState) (hit : Bool) :
    maybePrependReqVar ⟨ar, [⟨.idn "req", ty⟩], .block stmts⟩ st hit
      = (⟨ar, [⟨.idn "ctx", if hit && ty.isNone then none else some "FreshContext"⟩],
          .block (constStmt "req" "ctx" "req" :: stmts)⟩,
         if hit && ty.isNone then st
         else { st with core := addName "FreshContext" st.core }) :=
  mppr_single_req ar ty stmts st hit

/-- Claim C5, counterexample: on `(req, \x7b remoteAddr \x7d) => \x7b...\x7d`
    the normalizer prepends only `const remoteAddr = info.remoteAddr`;
    the spec-claimed `const req = ctx.req` statement is nowhere in the
    resulting body (the `req` binding is spliced into the pattern
    instead). -/
theorem C5_counterexample :
    renderBody (maybePrependReqVar ⟨true, [⟨.idn "req", none⟩, ⟨.pat ["remoteAddr"], none⟩],
        .block []⟩ ⟨[], [], []⟩ true).1.body
      = renderBody (.block [constStmt "remoteAddr" "info" "remoteAddr"]) ∧
    ¬(jsIncludes (renderBody (maybePrependReqVar ⟨true, [⟨.idn "req", none⟩,
        ⟨.pat ["remoteAddr"], none⟩], .block []⟩ ⟨[], [], []⟩ true).1.body)
      ("const req = ctx.req".toList) = true) ∧
    (maybePrependReqVar ⟨true, [⟨.idn "req", none⟩, ⟨.pat ["remoteAddr"], none⟩],
        .block []⟩ ⟨[], [], []⟩ true).1.params
      = [⟨.pat ["info", "req"], none⟩] :=
  ⟨by decide, by decide, by decide⟩

/-- Claim C5, amended: on a two-parameter handler whose second
    parameter is the pattern `\x7b remoteAddr \x7d` (not annotated
    `RouteContext`) and whose first parameter is not
    underscore-prefixed, the normalizer drops the first parameter,
    rewrites the pattern to bind `info` and `req`, and prepends only
    `const remoteAddr = info.remoteAddr` to the block body. -/
theorem C5_two_pat_normalization (ar : Bool) (pn : PName) (t1 t2 : Option String)
    (stmts : List Stmt) (st : ImportState) (hit : Bool)
    (h1 : startsWithUnderscore (paramNameText pn) = false)
    (h2 : t2 ≠ some "RouteContext") :
    maybePrependReqVar ⟨ar, [⟨pn, t1⟩, ⟨.pat ["remoteAddr"], t2⟩], .block stmts⟩ st hit
      = (⟨ar, [⟨.pat ["info", "req"], t2⟩],
          .block (constStmt "remoteAddr" "info" "remoteAddr" :: stmts)⟩, st) := by
  cases ar <;>
    simp [maybePrependReqVar, h1, h2, isPatName, isBlock, prependStmt, setHeadPat]

/-- Witness for C5 on the concrete handler
    `(req, \x7b remoteAddr \x7d) => \x7b\x7d`. -/
theorem C5_witness :
    startsWithUnderscore (paramNameText (.idn "req")) = false ∧
    maybePrependReqVar ⟨true, [⟨.idn "req", none⟩, ⟨.pat ["remoteAddr"], none⟩],
        .block []⟩ ⟨[], [], []⟩ true
      = (⟨true, [⟨.pat ["info", "req"], none⟩],
          .block [constStmt "remoteAddr" "info" "remoteAddr"]⟩, ⟨[], [], []⟩) :=
  ⟨by decide, C5_two_pat_normalization true (.idn "req") none none [] ⟨[], [], []⟩ true
    (by decide) (by decide)⟩

/-- Claim C6, counterexample: with an empty core set and runtime set
    `IS_BROWSER`, the synthesized `fresh/runtime` import carries *no*
    named bindings — not the runtime set's names as claimed (the source
    writes `Array.from(newImports.core)` there). -/
theorem C6_counterexample :
    (runImportPhase [] ⟨[], ["IS_BROWSER"], []⟩).decls
      = [⟨"fresh/runtime", [], false, false⟩] ∧
    ¬((runImportPhase [] ⟨[], ["IS_BROWSER"], []⟩).decls
      = [⟨"fresh/runtime", ["IS_BROWSER"], false, false⟩]) :=
  ⟨by decide, by decide⟩

/-- Claim C6, amended: when no import declaration has the legacy
    specifier `$fresh/runtime.ts` and the runtime set is non-empty, the
    rewriter synthesizes a `fresh/runtime` declaration whose named
    bindings are the *core* set's names (the copy-paste defect noted by
    the spec). -/
theorem C6_runtime_synthesis (imps : List ImportDecl) (st : ImportState)
    (h1 : ∀ d ∈ imps, d.specifier ≠ "$fresh/runtime.ts")
    (h2 : st.runtime ≠ []) :
    (⟨"fresh/runtime", (importLoop st imps).st.core, false, false⟩ : ImportDecl)
      ∈ (runImportPhase imps st).decls := by
  have hrt : (importLoop st imps).st.runtime = st.runtime :=
    importLoop_st_runtime imps st h1
  have hhr : (importLoop st imps).hasRuntimeImport = false := by
    rw [importLoop_hasRuntime]
    exact List.any_eq_false.mpr fun d hd => by simpa using h1 d hd
  have hcond : (!(importLoop st imps).hasRuntimeImport
      && !(importLoop st imps).st.runtime.isEmpty) = true := by
    rw [hhr, hrt]
    cases hl : st.runtime with
    | nil => exact absurd hl h2
    | cons a t => rfl
  show _ ∈ (importLoop st imps).decls ++ synthImports (importLoop st imps)
  apply List.mem_append_right
  rw [synthImports, if_pos hcond]
  simp

/-- Witness for C6: an empty import list with core set `Head` and
    runtime set `IS_BROWSER`. -/
theorem C6_witness :
    (∀ d ∈ ([] : List ImportDecl), d.specifier ≠ "$fresh/runtime.ts") ∧
    (["IS_BROWSER"] : List String) ≠ [] ∧
    (⟨"fresh/runtime", (importLoop ⟨["Head"], ["IS_BROWSER"], []⟩ []).st.core, false, false⟩ :
        ImportDecl)
      ∈ (runImportPhase [] ⟨["Head"], ["IS_BROWSER"], []⟩).decls :=
  ⟨by decide, by decide,
    C6_runtime_synthesis [] ⟨["Head"], ["IS_BROWSER"], []⟩ (by decide) (by decide)⟩

/-- Claim C7: a property access ending in `renderNotFound` is rewritten
    to end in `throw` with the flag raised; when that access is the
    callee of a call, the walker appends a literal `404` argument; the
    chained `ctx.state.renderNotFound()` is handled the same way. -/
theorem C7_renderNotFound_rewrite :
    (∀ r : Expr, rewriteCtxMemberName (.propAccess r "renderNotFound")
        = (.propAccess r "throw", true)) ∧
    (∀ (r : Expr) (args : List Expr),
      walkExpr (.call (.propAccess r "renderNotFound") args)
        = .call (.propAccess r "throw") (args ++ [.lit "404"])) ∧
    walkExpr (.call (.propAccess (.propAccess (.ident "ctx") "state") "renderNotFound") [])
      = .call (.propAccess (.propAccess (.ident "ctx") "state") "throw") [.lit "404"] := by
  refine ⟨rwName_rnf, fun r args => ?_, by rfl⟩
  show Expr.call (rewriteCtxMemberName (.propAccess r "renderNotFound")).1
      (if (rewriteCtxMemberName (.propAccess r "renderNotFound")).2
       then args ++ [.lit "404"] else args)
    = Expr.call (.propAccess r "throw") (args ++ [.lit "404"])
  rw [rwName_rnf r]
  rfl

/-- Claim C8: one application of the manifest update reaches a fixed
    point — a second run on the first run's output document and
    on-disk content performs the edit without throwing, produces the
    same document, reports `updated = false` and leaves the content
    untouched. -/
theorem C8_manifest_idempotent (c0 : List Char) (d0 : DenoJson) (u : Bool)
    (d1 : DenoJson) (c1 : List Char)
    (h : updateDenoJsonStep c0 d0 = some (u, d1, c1)) :
    updateDenoJsonStep c1 d1 = some (false, d1, c1) :=
  updateDenoJsonStep_second c0 d0 u d1 c1 h

set_option maxRecDepth 100000 in
/-- Witness for C8 on a minimal manifest. -/
theorem C8_witness :
    updateDenoJsonStep c8Content0 c8Doc0 = some (true, c8Doc1, c8Content1) ∧
    updateDenoJsonStep c8Content1 c8Doc1 = some (false, c8Doc1, c8Content1) :=
  ⟨by decide,
    C8_manifest_idempotent c8Content0 c8Doc0 true c8Doc1 c8Content1 (by decide)⟩

/-- Claim C9: each discovered file yields exactly one result record (in
    order, with its own path); a prefix of failing files never cancels
    the remaining files; the summary's `errors` field counts exactly
    the files whose update threw; every settled file is counted
    (processed + errors = total); and the reported error-path list is
    exactly the failing files. -/
theorem C9_per_file_isolation (upd : String → Except String Bool) (paths qs : List String) :
    (processFiles upd paths).map (fun r => r.fpath) = paths ∧
    processFiles upd (paths ++ qs) = processFiles upd paths ++ processFiles upd qs ∧
    (phase2Summary upd paths).errors = (paths.filter (fun p => !(upd p).isOk)).length ∧
    (phase2Summary upd paths).filesProcessed + (phase2Summary upd paths).errors
      = paths.length ∧
    phase2ErrorPaths upd paths = paths.filter (fun p => !(upd p).isOk) := by
  have hcons : ∀ (a : String) (t : List String), processFiles upd (a :: t)
      = (match upd a with
         | .ok m => (⟨true, m, a⟩ : FileResult)
         | .error _ => (⟨false, false, a⟩ : FileResult)) :: processFiles upd t :=
    fun a t => rfl
  have hmap : ∀ l : List String, (processFiles upd l).map (fun r => r.fpath) = l := by
    intro l
    induction l with
    | nil => rfl
    | cons a t ih =>
      rw [hcons, List.map_cons, ih]
      cases hu : upd a <;> simp [hu]
  have herrlen : ∀ l : List String,
      ((processFiles upd l).filter (fun r => !r.success)).length
        = (l.filter (fun p => !(upd p).isOk)).length := by
    intro l
    induction l with
    | nil => rfl
    | cons a t ih =>
      rw [hcons, List.filter_cons, List.filter_cons]
      cases hu : upd a <;> simp [hu, Except.isOk, Except.toBool, ih]
  have hsplit : ∀ l : List String,
      ((processFiles upd l).filter (fun r => r.success)).length
        + ((processFiles upd l).filter (fun r => !r.success)).length = l.length := by
    intro l
    induction l with
    | nil => rfl
    | cons a t ih =>
      rw [hcons, List.filter_cons, List.filter_cons]
      cases hu : upd a <;> simp [hu] <;> omega
  have herrpaths : ∀ l : List String,
      phase2ErrorPaths upd l = l.filter (fun p => !(upd p).isOk) := by
    intro l
    induction l with
    | nil => rfl
    | cons a t ih =>
      rw [phase2ErrorPaths] at ih ⊢
      rw [hcons, List.filter_cons, List.filter_cons]
      cases hu : upd a <;> simp [hu, Except.isOk, Except.toBool, ih]
  refine ⟨hmap paths, ?_, ?_, ?_, herrpaths paths⟩
  · show (paths ++ qs).map _ = paths.map _ ++ qs.map _
    exact List.map_append _ paths qs
  · show ((processFiles upd paths).filter (fun r => !r.success)).length = _
    exact herrlen paths
  · show ((processFiles upd paths).filter (fun r => r.success)).length
        + ((processFiles upd paths).filter (fun r => !r.success)).length = paths.length
    exact hsplit paths

/-- Claim C10: a sole parameter named `_req` is removed outright — the
    function becomes zero-parameter — with no `const req = ctx.req`
    insertion, no type annotation and no import-set change. -/
theorem C10_underscore_req_removal (ar : Bool) (ty : Option String) (bd : FnBody)
    (st : ImportState) (hit : Bool) :
    maybePrependReqVar ⟨ar, [⟨.idn "_req", ty⟩], bd⟩ st hit = (⟨ar, [], bd⟩, st) :=
  mppr_underscore ar ty bd st hit

end FreshUpd
